import Mathlib

/-!
Verification development for the supervisor node of the bastion supervision
tree (`src/bastion/src/supervisor.rs`).

The supervisor's registry, control-message state machine, restart engine and
reset procedure are shallowly embedded below.  Identifiers (`BastionId`) are
modelled as natural numbers drawn from a monotone allocator `nextId` threaded
through the state (the implementation draws process-unique identifiers from a
global generator).  The broadcast transport, lifecycle callbacks and the
`reset` contract of supervised subjects live outside the supervisor source
file; they are modelled from the specification's description of the
interfaces the supervisor invokes, and each such definition is marked
`Modelled from the spec:` in its documentation.  Callback invocations and
message sends are recorded as an explicit event trace.
-/

/-- Identifier of a supervisor or supervised subject.  The implementation
uses an opaque process-unique value with equality and hashability; the
embedding uses a natural number. -/
abbrev BastionId := Nat

/-- Modelled from the spec: the broadcast transport owned by a supervisor
(`crate::broadcast::Broadcast`, outside the supervisor source).  It carries
the owner's identifier and the list of registered child endpoints in
registration order. -/
structure Broadcast where
  id : BastionId
  children : List BastionId
deriving DecidableEq, Repr

/-- Modelled from the spec: `Broadcast::register` adds a child endpoint to
the fan-out set. -/
def Broadcast.register (b : Broadcast) (child : BastionId) : Broadcast :=
  { b with children := b.children ++ [child] }

/-- Modelled from the spec: `Broadcast::unregister` makes a child
unreachable via the parent's fan-out. -/
def Broadcast.unregister (b : Broadcast) (child : BastionId) : Broadcast :=
  { b with children := b.children.filter (fun c => decide (c ≠ child)) }

/-- Modelled from the spec: `Broadcast::clear_children` empties the fan-out
set. -/
def Broadcast.clearChildren (b : Broadcast) : Broadcast :=
  { b with children := [] }

/-- A lifecycle or user message delivered to a supervised subject. -/
inductive ChildMsg
  | start
  | stop
  | kill
  | user (payload : Nat)
deriving DecidableEq, Repr

/-- An observable action of the supervisor: a message delivery to a child, a
group-level fan-out primitive, a lifecycle callback invocation, or a
notification emitted to the parent. -/
inductive Event
  | deliver (child : BastionId) (msg : ChildMsg)
  | stopChildren
  | killChildren
  | beforeStartCb (id : BastionId)
  | afterStopCb (id : BastionId)
  | beforeRestartCb (id : BastionId)
  | afterRestartCb (id : BastionId)
  | emittedStopped
  | emittedFaulted
deriving DecidableEq, Repr

/-- Modelled from the spec: `Broadcast::send_children` fans a message out to
every registered child, in registration order. -/
def Broadcast.sendChildren (b : Broadcast) (m : ChildMsg) : List Event :=
  b.children.map (fun c => Event.deliver c m)

/-- Modelled from the spec: `Broadcast::send_child` sends a message to one
specific child. -/
def Broadcast.sendChild (_b : Broadcast) (child : BastionId) (m : ChildMsg) : List Event :=
  [Event.deliver child m]

/-- A supervised subject (`enum Supervised`: a child supervisor or a worker
group).  The supervisor only ever consults its identifier; callbacks are
recorded in the event trace. -/
structure Supervised where
  id : BastionId
deriving DecidableEq, Repr

/-- The operation `Supervised::reset`: produce a fresh instance of the subject bound to a
new broadcast channel.  For the supervisor variant the source sets
`self.bcast = bcast`, so the identifier becomes the new broadcast's
identifier; for the children variant (modelled from the spec) the fresh
instance likewise carries a newly generated identifier taken from the new
broadcast. -/
def Supervised.reset (_s : Supervised) (b : Broadcast) : Supervised :=
  ⟨b.id⟩

/-- The supervision strategy (`enum SupervisionStrategy`). -/
inductive SupervisionStrategy
  | oneForOne
  | oneForAll
  | restForOne
deriving DecidableEq, Repr

/-- The default strategy is one-for-one (`impl Default for SupervisionStrategy`). -/
def SupervisionStrategy.default : SupervisionStrategy :=
  SupervisionStrategy.oneForOne

/-- The control-message protocol consumed on the supervisor's inbox
(`enum BastionMessage`, restricted to the variants the supervisor handles). -/
inductive BastionMessage
  | start
  | stop
  | kill
  | deploy (subject : Supervised)
  | prune
  | superviseWith (strategy : SupervisionStrategy)
  | message (payload : Nat)
  | stoppedMsg (id : BastionId)
  | faulted (id : BastionId)
deriving DecidableEq, Repr

/-- The supervisor state (`struct Supervisor`).  `launched` maps an
identifier to its ordinal (the running-task handle is elided: awaiting the
handle of an identifier yields the subject with that identifier);
`stopped` and `killed` hold the dormant subjects keyed by their identifier.
`nextId` is the identifier allocator (a model of the process-unique
identifier generator). -/
structure Supervisor where
  bcast : Broadcast
  order : List BastionId
  launched : List (BastionId × Nat)
  stopped : List Supervised
  killed : List Supervised
  strategy : SupervisionStrategy
  isSystemSupervisor : Bool
  preStartMsgs : List BastionMessage
  started : Bool
  nextId : Nat
deriving DecidableEq, Repr

/-- The constructor `Supervisor::new`: empty registry, default strategy, not started. -/
def Supervisor.new (bcast : Broadcast) (nextId : Nat) : Supervisor :=
  { bcast := bcast
    order := []
    launched := []
    stopped := []
    killed := []
    strategy := SupervisionStrategy.default
    isSystemSupervisor := false
    preStartMsgs := []
    started := false
    nextId := nextId }

/-- The method `Supervisor::kill` over the range `start..`: if the start index is 0 a
single group-level kill fan-out is issued, otherwise each identifier of the
suffix is sent Kill individually; then every identifier of the suffix is
removed from `launched`, its handle awaited in deployment order, and the
dormant subject inserted into `killed`.  `order.get(start..)` panics (here:
`none`) when `start` exceeds the length. -/
def Supervisor.killRange (s : Supervisor) (start : Nat) : Option (Supervisor × List Event) :=
  if start ≤ s.order.length then
    let suffix := s.order.drop start
    let fanout : List Event :=
      if start = 0 then [Event.killChildren]
      else suffix.map (fun id => Event.deliver id ChildMsg.kill)
    let affected := suffix.filter (fun id => (s.launched.find? (fun p => decide (p.1 = id))).isSome)
    some ({ s with
            launched := s.launched.filter (fun p => decide (p.1 ∉ suffix))
            killed := s.killed ++ affected.map (fun id => ⟨id⟩) },
          fanout)
  else none

/-- The method `Supervisor::stop` over the range `start..`: like `killRange` but the
dormant subjects go to `stopped` and the after-stop callback is invoked for
each, in deployment order. -/
def Supervisor.stopRange (s : Supervisor) (start : Nat) : Option (Supervisor × List Event) :=
  if start ≤ s.order.length then
    let suffix := s.order.drop start
    let fanout : List Event :=
      if start = 0 then [Event.stopChildren]
      else suffix.map (fun id => Event.deliver id ChildMsg.stop)
    let affected := suffix.filter (fun id => (s.launched.find? (fun p => decide (p.1 = id))).isSome)
    some ({ s with
            launched := s.launched.filter (fun p => decide (p.1 ∉ suffix))
            stopped := s.stopped ++ affected.map (fun id => ⟨id⟩) },
          fanout ++ affected.map (fun id => Event.afterStopCb id))
  else none

/-- One step of the drain loop of `Supervisor::restart` and
`Supervisor::reset`: take the drained identifier's subject from `stopped`,
else from `killed`, else panic (`unimplemented!()`, here `none`), removing
it from the collection it was found in. -/
def takeSubject (id : BastionId) (st ki : List Supervised) :
    Option (Supervised × List Supervised × List Supervised) :=
  match st.find? (fun x => decide (x.id = id)) with
  | some sub => some (sub, st.filter (fun x => decide (x.id ≠ id)), ki)
  | none =>
    match ki.find? (fun x => decide (x.id = id)) with
    | some sub => some (sub, st, ki.filter (fun x => decide (x.id ≠ id)))
    | none => none

/-- The drain loop shared by `Supervisor::restart` and `Supervisor::reset`:
for each drained identifier, take the subject from `stopped` or `killed`
(`takeSubject`).  The `killed` flag is computed as in the source —
`self.killed.contains_key(..)` evaluated *after* the removal — and
`before_restart` is invoked when it is set.  A fresh broadcast identifier
(from the allocator `n`) is assigned to each drained subject in submission
order.  Returns the remaining `stopped` and `killed` collections, the
pending reset jobs in submission order, the new allocator value and the
emitted events. -/
def drainLoop : Nat → List BastionId → List Supervised → List Supervised →
    Option (List Supervised × List Supervised × List (Supervised × Bool × Nat) × Nat × List Event)
  | n, [], st, ki => some (st, ki, [], n, [])
  | n, id :: rest, st, ki =>
    (takeSubject id st ki).bind (fun x =>
      let killedFlag := (x.2.2.find? (fun y => decide (y.id = x.1.id))).isSome
      let ev1 : List Event := if killedFlag then [Event.beforeRestartCb x.1.id] else []
      (drainLoop (n + 1) rest x.2.1 x.2.2).map (fun r =>
        (r.1, r.2.1, (x.1, killedFlag, n) :: r.2.2.1, r.2.2.2.1, ev1 ++ r.2.2.2.2)))

/-- The collection loop shared by `Supervisor::restart` and
`Supervisor::reset`: the reset results are collected in submission order;
each reset subject triggers `after_restart` (when its `killed` flag was set)
or `before_start`, is registered with the broadcast, receives Start when the
supervisor is started, is spawned and inserted into `launched` with ordinal
equal to the current length of `order`, and its identifier is appended to
`order`. -/
def collectLoop (started : Bool) :
    List (Supervised × Bool × Nat) → Broadcast → List (BastionId × Nat) → List BastionId →
    Broadcast × List (BastionId × Nat) × List BastionId × List Event
  | [], bc, la, ord => (bc, la, ord, [])
  | (sub, killedFlag, nid) :: rest, bc, la, ord =>
    let newBcast : Broadcast := ⟨nid, []⟩
    let sub1 := sub.reset newBcast
    let evCb : List Event :=
      if killedFlag then [Event.afterRestartCb sub1.id] else [Event.beforeStartCb sub1.id]
    let bc1 := bc.register sub1.id
    let evStart : List Event := if started then [Event.deliver sub1.id ChildMsg.start] else []
    let la1 := (sub1.id, ord.length) :: la.filter (fun p => decide (p.1 ≠ sub1.id))
    let ord1 := ord ++ [sub1.id]
    let res := collectLoop started rest bc1 la1 ord1
    (res.1, res.2.1, res.2.2.1, evCb ++ evStart ++ res.2.2.2)

/-- The method `Supervisor::restart` over the range `start..`: kill the range, drain it
from `order`, reset each drained subject against a fresh broadcast, and
collect the results in submission order, re-appending them to `order`. -/
def Supervisor.restart (s : Supervisor) (start : Nat) : Option (Supervisor × List Event) :=
  match s.killRange start with
  | none => none
  | some (s1, ev1) =>
    match drainLoop s1.nextId (s1.order.drop start) s1.stopped s1.killed with
    | none => none
    | some (st1, ki1, pending, n1, ev2) =>
      let res := collectLoop s1.started pending s1.bcast s1.launched (s1.order.take start)
      some ({ s1 with
              bcast := res.1
              launched := res.2.1
              order := res.2.2.1
              stopped := st1
              killed := ki1
              nextId := n1 },
            ev1 ++ ev2 ++ res.2.2.2)

/-- The method `Supervisor::reset`: kill the full range, swap in the broadcast supplied
by the parent (or clear the children of the current one), clear
`pre_start_msgs`, then drain and rebuild the full `order` exactly as the
bulk-restart procedure does. -/
def Supervisor.resetSelf (s : Supervisor) (bcOpt : Option Broadcast) :
    Option (Supervisor × List Event) :=
  match s.killRange 0 with
  | none => none
  | some (s1, ev1) =>
    let bc0 := match bcOpt with
      | some b => b
      | none => s1.bcast.clearChildren
    let s2 := { s1 with bcast := bc0, preStartMsgs := [] }
    match drainLoop s2.nextId s2.order s2.stopped s2.killed with
    | none => none
    | some (st1, ki1, pending, n1, ev2) =>
      let res := collectLoop s2.started pending s2.bcast s2.launched []
      some ({ s2 with
              bcast := res.1
              launched := res.2.1
              order := res.2.2.1
              stopped := st1
              killed := ki1
              nextId := n1 },
            ev1 ++ ev2 ++ res.2.2.2)

/-- The method `Supervisor::recover`: the restart engine.  One-for-one removes the
faulted identifier from `launched`, awaits it, runs `before_restart`,
unregisters it, resets it against a fresh broadcast (whose identifier the
fresh subject takes), runs `after_restart`, re-registers, sends Start when
started, re-inserts at the same ordinal and overwrites `order` at that
ordinal.  One-for-all bulk-restarts the full range; rest-for-one
bulk-restarts from the faulted identifier's ordinal.  An unknown identifier
makes one-for-one and rest-for-one signal failure (`Err`, here the boolean
`false`). -/
def Supervisor.recover (s : Supervisor) (id : BastionId) : Option (Supervisor × Bool × List Event) :=
  match s.strategy with
  | SupervisionStrategy.oneForOne =>
    match s.launched.find? (fun p => decide (p.1 = id)) with
    | none => some (s, false, [])
    | some (_, ord) =>
      let subject : Supervised := ⟨id⟩
      let ev1 : List Event := [Event.beforeRestartCb id]
      let bc1 := s.bcast.unregister id
      let newBcast : Broadcast := ⟨s.nextId, []⟩
      let newId := newBcast.id
      let subject1 := subject.reset newBcast
      let ev2 : List Event := [Event.afterRestartCb subject1.id]
      let bc2 := bc1.register subject1.id
      let ev3 : List Event := if s.started then [Event.deliver newId ChildMsg.start] else []
      some ({ s with
              bcast := bc2
              launched := (newId, ord) :: s.launched.filter (fun p => decide (p.1 ≠ id))
              order := s.order.set ord newId
              nextId := s.nextId + 1 },
            true, ev1 ++ ev2 ++ ev3)
  | SupervisionStrategy.oneForAll =>
    match s.restart 0 with
    | none => none
    | some (s1, ev) => some (s1, true, ev)
  | SupervisionStrategy.restForOne =>
    match s.launched.find? (fun p => decide (p.1 = id)) with
    | none => some (s, false, [])
    | some (_, start) =>
      match s.restart start with
      | none => none
      | some (s1, ev) => some (s1, true, ev)

/-- The method `Supervisor::handle`: the post-started message handler.  The returned
boolean is `true` for `Ok(())` (keep looping) and `false` for `Err(())`
(terminate the loop); `none` models a panic (`unreachable!()` for Start,
`unimplemented!()` for Prune). -/
def Supervisor.handle (s : Supervisor) (msg : BastionMessage) :
    Option (Supervisor × Bool × List Event) :=
  match msg with
  | BastionMessage.start => none
  | BastionMessage.stop =>
    match s.stopRange 0 with
    | none => none
    | some (s1, ev) => some (s1, false, ev ++ [Event.emittedStopped])
  | BastionMessage.kill =>
    match s.killRange 0 with
    | none => none
    | some (s1, ev) => some (s1, false, ev ++ [Event.emittedStopped])
  | BastionMessage.deploy subject =>
    let ev1 : List Event := [Event.beforeStartCb subject.id]
    let bc1 := s.bcast.register subject.id
    let ev2 : List Event := if s.started then [Event.deliver subject.id ChildMsg.start] else []
    some ({ s with
            bcast := bc1
            launched := (subject.id, s.order.length) ::
              s.launched.filter (fun p => decide (p.1 ≠ subject.id))
            order := s.order ++ [subject.id] },
          true, ev1 ++ ev2)
  | BastionMessage.prune => none
  | BastionMessage.superviseWith strategy => some ({ s with strategy := strategy }, true, [])
  | BastionMessage.message payload => some (s, true, s.bcast.sendChildren (ChildMsg.user payload))
  | BastionMessage.stoppedMsg id =>
    match s.launched.find? (fun p => decide (p.1 = id)) with
    | none => some (s, true, [])
    | some _ =>
      some ({ s with
              launched := s.launched.filter (fun p => decide (p.1 ≠ id))
              bcast := s.bcast.unregister id
              stopped := s.stopped ++ [⟨id⟩] },
            true, [Event.afterStopCb id])
  | BastionMessage.faulted id =>
    match s.recover id with
    | none => none
    | some (s1, true, ev) => some (s1, true, ev)
    | some (s1, false, ev) =>
      match s1.killRange 0 with
      | none => none
      | some (s2, ev2) => some (s2, false, ev ++ ev2 ++ [Event.emittedFaulted])

/-- Replay of a list of buffered messages through `handle`, stopping at the
first `Err` (boolean `false`) or panic (`none`). -/
def Supervisor.handleAll : Supervisor → List BastionMessage → Option (Supervisor × Bool × List Event)
  | s, [] => some (s, true, [])
  | s, m :: rest =>
    match s.handle m with
    | none => none
    | some (s1, false, ev) => some (s1, false, ev)
    | some (s1, true, ev) =>
      match s1.handleAll rest with
      | none => none
      | some (s2, ok, ev2) => some (s2, ok, ev ++ ev2)

/-- The loop `Supervisor::run` restricted to a finite prefix of the inbox: a Start
message (matched first, with no guard on `started`) sets `started`, fans
Start out to the registered children, and replays the pre-start buffer in
arrival order before any further inbox message; any other message is
buffered while not started and handled otherwise.  The loop returns when a
handler yields `Err` (the supervisor terminated); reaching the end of the
list models a supervisor still waiting on its inbox. -/
def Supervisor.runLoop : Supervisor → List BastionMessage → Option (Supervisor × List Event)
  | s, [] => some (s, [])
  | s, BastionMessage.start :: rest =>
    let s1 := { s with started := true }
    let ev1 := s1.bcast.sendChildren ChildMsg.start
    let msgs := s1.preStartMsgs
    let s2 := { s1 with preStartMsgs := [] }
    match s2.handleAll msgs with
    | none => none
    | some (s3, false, ev2) => some (s3, ev1 ++ ev2)
    | some (s3, true, ev2) =>
      match s3.runLoop rest with
      | none => none
      | some (s4, ev3) => some (s4, ev1 ++ ev2 ++ ev3)
  | s, m :: rest =>
    if s.started then
      match s.handle m with
      | none => none
      | some (s1, false, ev) => some (s1, ev)
      | some (s1, true, ev) =>
        match s1.runLoop rest with
        | none => none
        | some (s2, ev2) => some (s2, ev ++ ev2)
    else
      Supervisor.runLoop { s with preStartMsgs := s.preStartMsgs ++ [m] } rest

/-- The identifiers currently launched. -/
def Supervisor.launchedIds (s : Supervisor) : List BastionId :=
  s.launched.map (fun p => p.1)

/-- The identifiers of the stopped dormant subjects. -/
def Supervisor.stoppedIds (s : Supervisor) : List BastionId :=
  s.stopped.map (fun x => x.id)

/-- The identifiers of the killed dormant subjects. -/
def Supervisor.killedIds (s : Supervisor) : List BastionId :=
  s.killed.map (fun x => x.id)

/-- The registry invariant: `order` has no duplicates; `launched`, `stopped`
and `killed` are pairwise disjoint and their union is the set of identifiers
in `order`; every launched ordinal indexes its own identifier in `order`;
and every identifier in `order` precedes the allocator. -/
def RegistryInv (s : Supervisor) : Prop :=
  s.order.Nodup ∧
  (∀ id ∈ s.order, id ∈ s.launchedIds ∨ id ∈ s.stoppedIds ∨ id ∈ s.killedIds) ∧
  (∀ id ∈ s.launchedIds, id ∈ s.order) ∧
  (∀ id ∈ s.stoppedIds, id ∈ s.order) ∧
  (∀ id ∈ s.killedIds, id ∈ s.order) ∧
  (∀ id ∈ s.launchedIds, id ∉ s.stoppedIds ∧ id ∉ s.killedIds) ∧
  (∀ id ∈ s.stoppedIds, id ∉ s.killedIds) ∧
  (∀ p ∈ s.launched, s.order.get? p.2 = some p.1) ∧
  (∀ id ∈ s.order, id < s.nextId)

instance (s : Supervisor) : Decidable (RegistryInv s) := by
  unfold RegistryInv
  infer_instance

/-- Well-formedness of an incoming message relative to the current state:
a deployed subject carries a process-unique identifier, so it is distinct
from every identifier already known to the supervisor and was drawn from the
same generator the allocator models. -/
def msgWF (s : Supervisor) : BastionMessage → Prop
  | BastionMessage.deploy subject => subject.id ∉ s.order ∧ subject.id < s.nextId
  | _ => True

instance (s : Supervisor) (m : BastionMessage) : Decidable (msgWF s m) := by
  unfold msgWF
  cases m <;> infer_instance

/-- A concrete two-subject supervisor used to witness C8. -/
def c8state : Supervisor :=
  ⟨⟨0, [10, 11]⟩, [10, 11], [(10, 0), (11, 1)], [], [],
    SupervisionStrategy.oneForOne, false, [], true, 12⟩

/-- A concrete one-subject supervisor used to witness C5. -/
def c5state : Supervisor :=
  ⟨⟨0, [4]⟩, [4], [(4, 0)], [], [], SupervisionStrategy.oneForOne, false, [], true, 5⟩

/-- A concrete not-started supervisor with one buffered message, used to
witness C3's replay property. -/
def c3state : Supervisor :=
  { Supervisor.new ⟨0, []⟩ 1 with
    preStartMsgs := [BastionMessage.superviseWith SupervisionStrategy.oneForAll] }

/-- A concrete three-subject supervisor used to witness C7. -/
def c7state : Supervisor :=
  ⟨⟨0, [10, 11, 12]⟩, [10, 11, 12], [(10, 0), (11, 1), (12, 2)], [], [],
    SupervisionStrategy.oneForOne, false, [], true, 13⟩

/-- A concrete two-subject supervisor used to witness C1. -/
def c1state : Supervisor :=
  ⟨⟨0, [10, 11]⟩, [10, 11], [(10, 0), (11, 1)], [], [],
    SupervisionStrategy.oneForOne, false, [], true, 12⟩

/-- Modelled from the spec: `FuturesOrdered` releases the results of
concurrently completing futures in submission order.  `buf` is the
completion buffer, each element pairing a future's submission index with
its result; the drain repeatedly releases the result carrying the next
submission index.  The fuel only bounds the recursion (one buffer element
is consumed per step). -/
def fuDrainAux {A : Type} : Nat → Nat → List (Nat × A) → List A
  | 0, _, _ => []
  | fuel + 1, k, buf =>
    match buf.find? (fun q => decide (q.1 = k)) with
    | some q => q.2 :: fuDrainAux fuel (k + 1) (buf.eraseP (fun q => decide (q.1 = k)))
    | none => []

/-- Modelled from the spec: draining a `FuturesOrdered` whose futures were
submitted with indices `0, 1, …` and completed in the arbitrary order
recorded in `completed`. -/
def fuDrain {A : Type} (completed : List (Nat × A)) : List A :=
  fuDrainAux completed.length 0 completed

/-! ## General lemmas about the association-list operations -/

theorem find?_key_eq_none {l : List (BastionId × Nat)} {id : BastionId}
    (h : id ∉ l.map (fun p => p.1)) :
    l.find? (fun p => decide (p.1 = id)) = none := by
  rw [List.find?_eq_none]
  intro p hp hpe
  simp only [decide_eq_true_eq] at hpe
  exact h (hpe ▸ List.mem_map_of_mem (fun p => p.1) hp)

theorem find?_key_isSome {l : List (BastionId × Nat)} {id : BastionId}
    (h : id ∈ l.map (fun p => p.1)) :
    (l.find? (fun p => decide (p.1 = id))).isSome = true := by
  rw [List.find?_isSome]
  rcases List.mem_map.mp h with ⟨p, hp, rfl⟩
  exact ⟨p, hp, by simp⟩

theorem key_mem_of_find?_isSome {l : List (BastionId × Nat)} {id : BastionId}
    (h : (l.find? (fun p => decide (p.1 = id))).isSome = true) :
    id ∈ l.map (fun p => p.1) := by
  rcases Option.isSome_iff_exists.mp h with ⟨p, hp⟩
  have hpe := List.find?_some hp
  simp only [decide_eq_true_eq] at hpe
  exact hpe ▸ List.mem_map_of_mem (fun p => p.1) (List.mem_of_find?_eq_some hp)

theorem filter_key_eq_self {l : List (BastionId × Nat)} {id : BastionId}
    (h : id ∉ l.map (fun p => p.1)) :
    l.filter (fun p => decide (p.1 ≠ id)) = l := by
  rw [List.filter_eq_self]
  intro p hp
  simp only [decide_eq_true_eq]
  intro hpe
  exact h (hpe ▸ List.mem_map_of_mem (fun p => p.1) hp)

/-- C10: Handling a `Stopped{id}` notification whose identifier is not
present in `launched` is a silent no-op: `handle` returns `Ok` (the loop
continues), the supervisor state is entirely unchanged and no callback or
message event is emitted. -/
theorem stopped_unknown_noop (s : Supervisor) (id : BastionId)
    (h : id ∉ s.launchedIds) :
    s.handle (BastionMessage.stoppedMsg id) = some (s, true, []) := by
  have hfind : s.launched.find? (fun p => decide (p.1 = id)) = none :=
    find?_key_eq_none h
  simp [Supervisor.handle, hfind]

/-- Witness for C10 at a concrete supervisor and identifier. -/
theorem stopped_unknown_noop_witness :
    (3 : BastionId) ∉ (Supervisor.new ⟨0, []⟩ 1).launchedIds ∧
      (Supervisor.new ⟨0, []⟩ 1).handle (BastionMessage.stoppedMsg 3) =
        some (Supervisor.new ⟨0, []⟩ 1, true, []) :=
  ⟨by decide, stopped_unknown_noop (Supervisor.new ⟨0, []⟩ 1) 3 (by decide)⟩

/-! ## C8: stop and kill over a range -/

theorem affected_filter_eq (s : Supervisor) (suffix : List BastionId) :
    suffix.filter (fun id => (s.launched.find? (fun p => decide (p.1 = id))).isSome) =
      suffix.filter (fun id => decide (id ∈ s.launchedIds)) := by
  apply List.filter_congr
  intro id _
  by_cases h : id ∈ s.launchedIds
  · rw [find?_key_isSome h, decide_eq_true h]
  · rw [find?_key_eq_none h]
    simp [h]

theorem stopRange_eq (s : Supervisor) (start : Nat) (h : start ≤ s.order.length) :
    s.stopRange start = some ({ s with
        launched := s.launched.filter (fun p => decide (p.1 ∉ s.order.drop start))
        stopped := s.stopped ++ ((s.order.drop start).filter
          (fun id => decide (id ∈ s.launchedIds))).map (fun id => ⟨id⟩) },
      (if start = 0 then [Event.stopChildren]
       else (s.order.drop start).map (fun id => Event.deliver id ChildMsg.stop)) ++
      ((s.order.drop start).filter (fun id => decide (id ∈ s.launchedIds))).map
        (fun id => Event.afterStopCb id)) := by
  simp only [Supervisor.stopRange, if_pos h]
  rw [affected_filter_eq]

theorem killRange_eq (s : Supervisor) (start : Nat) (h : start ≤ s.order.length) :
    s.killRange start = some ({ s with
        launched := s.launched.filter (fun p => decide (p.1 ∉ s.order.drop start))
        killed := s.killed ++ ((s.order.drop start).filter
          (fun id => decide (id ∈ s.launchedIds))).map (fun id => ⟨id⟩) },
      if start = 0 then [Event.killChildren]
      else (s.order.drop start).map (fun id => Event.deliver id ChildMsg.kill)) := by
  simp only [Supervisor.killRange, if_pos h]
  rw [affected_filter_eq]

/-- C8: In the stop and kill procedures over a range of `order`: with start
index 0 a single group-level stop-children/kill-children fan-out is issued,
otherwise each identifier of the suffix is sent Stop/Kill individually; each
affected identifier (one of the suffix present in `launched`) is removed
from `launched`, awaited in deployment order, and the dormant subject moved
to `stopped` — with the after-stop callback invoked, in deployment order —
for Stop, or to `killed` — with no after-stop callback — for Kill. -/
theorem stop_kill_fanout_spec (s : Supervisor) (start : Nat)
    (h : start ≤ s.order.length) :
    ∃ s1 s2,
      s.stopRange start = some (s1,
        (if start = 0 then [Event.stopChildren]
         else (s.order.drop start).map (fun id => Event.deliver id ChildMsg.stop)) ++
        ((s.order.drop start).filter (fun id => decide (id ∈ s.launchedIds))).map
          (fun id => Event.afterStopCb id)) ∧
      s.killRange start = some (s2,
        if start = 0 then [Event.killChildren]
        else (s.order.drop start).map (fun id => Event.deliver id ChildMsg.kill)) ∧
      (∀ id ∈ s.order.drop start, id ∉ s1.launchedIds ∧ id ∉ s2.launchedIds) ∧
      (∀ p ∈ s.launched, p.1 ∉ s.order.drop start → p ∈ s1.launched ∧ p ∈ s2.launched) ∧
      s1.stopped = s.stopped ++
        ((s.order.drop start).filter (fun id => decide (id ∈ s.launchedIds))).map
          (fun id => (⟨id⟩ : Supervised)) ∧
      s2.killed = s.killed ++
        ((s.order.drop start).filter (fun id => decide (id ∈ s.launchedIds))).map
          (fun id => (⟨id⟩ : Supervised)) ∧
      s1.killed = s.killed ∧ s2.stopped = s.stopped ∧
      s1.order = s.order ∧ s2.order = s.order := by
  refine ⟨_, _, stopRange_eq s start h, killRange_eq s start h,
    ?_, ?_, rfl, rfl, rfl, rfl, rfl, rfl⟩
  · intro id hid
    constructor <;>
    · simp only [Supervisor.launchedIds, List.mem_map, List.mem_filter, not_exists, not_and]
      rintro ⟨a, b⟩ ⟨hp, hnp⟩ hfst
      simp only [decide_eq_true_eq] at hnp hfst
      subst hfst
      exact absurd hid hnp
  · intro p hp hnp
    constructor <;>
    · simp only [List.mem_filter, decide_eq_true_eq]
      exact ⟨hp, hnp⟩


/-- Witness for C8 at a concrete supervisor and a nonzero start index. -/
theorem stop_kill_fanout_spec_witness :
    (1 : Nat) ≤ c8state.order.length ∧
    ∃ s1 s2,
      c8state.stopRange 1 = some (s1,
        (if (1 : Nat) = 0 then [Event.stopChildren]
         else (c8state.order.drop 1).map (fun id => Event.deliver id ChildMsg.stop)) ++
        ((c8state.order.drop 1).filter (fun id => decide (id ∈ c8state.launchedIds))).map
          (fun id => Event.afterStopCb id)) ∧
      c8state.killRange 1 = some (s2,
        if (1 : Nat) = 0 then [Event.killChildren]
        else (c8state.order.drop 1).map (fun id => Event.deliver id ChildMsg.kill)) ∧
      (∀ id ∈ c8state.order.drop 1, id ∉ s1.launchedIds ∧ id ∉ s2.launchedIds) ∧
      (∀ p ∈ c8state.launched, p.1 ∉ c8state.order.drop 1 → p ∈ s1.launched ∧ p ∈ s2.launched) ∧
      s1.stopped = c8state.stopped ++
        ((c8state.order.drop 1).filter (fun id => decide (id ∈ c8state.launchedIds))).map
          (fun id => (⟨id⟩ : Supervised)) ∧
      s2.killed = c8state.killed ++
        ((c8state.order.drop 1).filter (fun id => decide (id ∈ c8state.launchedIds))).map
          (fun id => (⟨id⟩ : Supervised)) ∧
      s1.killed = c8state.killed ∧ s2.stopped = c8state.stopped ∧
      s1.order = c8state.order ∧ s2.order = c8state.order :=
  ⟨by decide, stop_kill_fanout_spec c8state 1 (by decide)⟩

/-! ## C5: Faulted with an unknown identifier -/

/-- C5 counterexample: under the one-for-all strategy, `recover` ignores the
faulted identifier and restarts the full range, so a Faulted message for an
identifier unknown to every registry collection does **not** make the
restart engine signal failure — here it returns `Ok` (`true`). -/
theorem faulted_unknown_one_for_all_counterexample :
    Supervisor.recover
        ⟨⟨0, []⟩, [], [], [], [], SupervisionStrategy.oneForAll, false, [], true, 1⟩ 99 =
      some (⟨⟨0, []⟩, [], [], [], [], SupervisionStrategy.oneForAll, false, [], true, 1⟩,
        true, [Event.killChildren]) := by decide

/-- C5 as amended: under one-for-one and rest-for-one, handling
`Faulted{id}` for an identifier not in `launched` makes `recover` signal
failure, after which the supervisor kills all remaining subjects (`launched`
becomes empty and the group-level kill fan-out is issued), emits faulted
upward, and terminates its loop (later inbox messages are not consumed);
under one-for-all, `recover` ignores the identifier and succeeds. -/
theorem faulted_unknown_escalates (s : Supervisor) (id : BastionId)
    (hs : RegistryInv s)
    (hstrat : s.strategy ≠ SupervisionStrategy.oneForAll)
    (h : id ∉ s.launchedIds) :
    s.recover id = some (s, false, []) ∧
    ∃ s2, s.handle (BastionMessage.faulted id) =
        some (s2, false, [Event.killChildren, Event.emittedFaulted]) ∧
      s2.launched = [] ∧
      (s.started = true → ∀ rest, s.runLoop (BastionMessage.faulted id :: rest) =
        some (s2, [Event.killChildren, Event.emittedFaulted])) := by
  have hfind : s.launched.find? (fun p => decide (p.1 = id)) = none :=
    find?_key_eq_none h
  have hrec : s.recover id = some (s, false, []) := by
    unfold Supervisor.recover
    rcases hcs : s.strategy with _ | _ | _
    · rw [hfind]
    · exact absurd hcs hstrat
    · rw [hfind]
  have hkill := killRange_eq s 0 (Nat.zero_le _)
  have hempty : s.launched.filter (fun p => decide (p.1 ∉ s.order.drop 0)) = [] := by
    rw [List.filter_eq_nil]
    intro p hp
    simp only [List.drop_zero, decide_eq_true_eq, not_not]
    exact hs.2.2.1 p.1 (List.mem_map_of_mem (fun q => q.1) hp)
  have hstep : s.handle (BastionMessage.faulted id) =
      match s.recover id with
      | none => none
      | some (s1, true, ev) => some (s1, true, ev)
      | some (s1, false, ev) =>
        match s1.killRange 0 with
        | none => none
        | some (s2, ev2) => some (s2, false, ev ++ ev2 ++ [Event.emittedFaulted]) := rfl
  have hhandle : s.handle (BastionMessage.faulted id) =
      some ({ s with
          launched := []
          killed := s.killed ++ ((s.order.drop 0).filter
            (fun i => decide (i ∈ s.launchedIds))).map (fun i => ⟨i⟩) },
        false, [Event.killChildren, Event.emittedFaulted]) := by
    simp only [hstep, hrec, hkill, hempty]
    simp
  refine ⟨hrec, _, hhandle, rfl, ?_⟩
  intro hstarted rest
  have hloop : s.runLoop (BastionMessage.faulted id :: rest) =
      if s.started = true then
        match s.handle (BastionMessage.faulted id) with
        | none => none
        | some (s1, false, ev) => some (s1, ev)
        | some (s1, true, ev) =>
          match s1.runLoop rest with
          | none => none
          | some (s2, ev2) => some (s2, ev ++ ev2)
      else Supervisor.runLoop
        { s with preStartMsgs := s.preStartMsgs ++ [BastionMessage.faulted id] } rest := rfl
  rw [hloop, if_pos hstarted, hhandle]


/-- Witness for C5 at a concrete supervisor and an unknown identifier. -/
theorem faulted_unknown_escalates_witness :
    RegistryInv c5state ∧
    c5state.strategy ≠ SupervisionStrategy.oneForAll ∧
    (9 : BastionId) ∉ c5state.launchedIds ∧
    (c5state.recover 9 = some (c5state, false, []) ∧
      ∃ s2, c5state.handle (BastionMessage.faulted 9) =
          some (s2, false, [Event.killChildren, Event.emittedFaulted]) ∧
        s2.launched = [] ∧
        (c5state.started = true → ∀ rest,
          c5state.runLoop (BastionMessage.faulted 9 :: rest) =
            some (s2, [Event.killChildren, Event.emittedFaulted]))) :=
  ⟨by decide, by decide, by decide,
    faulted_unknown_escalates c5state 9 (by decide) (by decide) (by decide)⟩

/-! ## C9: a second Start message -/

/-- C9 counterexample: `run` matches Start with no guard on `started`, so a
second Start received on the inbox is processed again and causes a second
Start fan-out to the registered subjects — here child 7 receives Start
twice. -/
theorem second_start_fanout_counterexample :
    Supervisor.runLoop (Supervisor.new ⟨0, [7]⟩ 8)
        [BastionMessage.start, BastionMessage.start] =
      some ({ Supervisor.new ⟨0, [7]⟩ 8 with started := true },
        [Event.deliver 7 ChildMsg.start, Event.deliver 7 ChildMsg.start]) := by
  decide

/-- C9 as amended: a Start received while already started is not ignored or
rejected — it is processed exactly like the first one: it re-issues the
Start fan-out to the registered subjects (the pre-start buffer being empty,
the replay is vacuous) and the loop continues with the rest of the inbox. -/
theorem second_start_reprocessed (s : Supervisor) (rest : List BastionMessage)
    (hstarted : s.started = true) (hbuf : s.preStartMsgs = []) :
    s.runLoop (BastionMessage.start :: rest) =
      (s.runLoop rest).map
        (fun p : Supervisor × List Event =>
          (p.1, s.bcast.sendChildren ChildMsg.start ++ p.2)) := by
  have hs : { s with started := true, preStartMsgs := [] } = s := by
    cases s
    simp_all
  have hstep : s.runLoop (BastionMessage.start :: rest) =
      match Supervisor.handleAll { s with started := true, preStartMsgs := [] }
          s.preStartMsgs with
      | none => none
      | some (s3, false, ev2) => some (s3, s.bcast.sendChildren ChildMsg.start ++ ev2)
      | some (s3, true, ev2) =>
        match s3.runLoop rest with
        | none => none
        | some (s4, ev3) =>
          some (s4, s.bcast.sendChildren ChildMsg.start ++ ev2 ++ ev3) := rfl
  rw [hstep, hs, hbuf]
  cases hr : s.runLoop rest
  · simp [Supervisor.handleAll, hr]
  · simp [Supervisor.handleAll, hr]

/-- Witness for C9's amended theorem at a concrete started supervisor. -/
theorem second_start_reprocessed_witness :
    ({ Supervisor.new ⟨0, [7]⟩ 8 with started := true }).started = true ∧
    ({ Supervisor.new ⟨0, [7]⟩ 8 with started := true }).preStartMsgs = [] ∧
    ({ Supervisor.new ⟨0, [7]⟩ 8 with started := true }).runLoop [BastionMessage.start] =
      (({ Supervisor.new ⟨0, [7]⟩ 8 with started := true }).runLoop []).map
        (fun p : Supervisor × List Event => (p.1,
          ({ Supervisor.new ⟨0, [7]⟩ 8 with started := true }).bcast.sendChildren
            ChildMsg.start ++ p.2)) :=
  ⟨by decide, by decide,
    second_start_reprocessed { Supervisor.new ⟨0, [7]⟩ 8 with started := true } []
      (by decide) (by decide)⟩

/-! ## C3: pre-start buffering -/

/-- C3 counterexample: with inbox user-broadcast, then Deploy(G), then
Start, the deployed group G receives Start, but it never receives the
buffered user message — the buffered broadcast is replayed before the
buffered Deploy and fans out only to the subjects registered at that
moment, of which G is not one.  The full trace contains no delivery of the
user payload to G. -/
theorem prestart_buffer_scenario_counterexample :
    Supervisor.runLoop (Supervisor.new ⟨0, []⟩ 2)
        [BastionMessage.message 0, BastionMessage.deploy ⟨1⟩, BastionMessage.start] =
      some (⟨⟨0, [1]⟩, [1], [(1, 0)], [], [], SupervisionStrategy.oneForOne, false, [],
          true, 2⟩,
        [Event.beforeStartCb 1, Event.deliver 1 ChildMsg.start]) ∧
    Event.deliver 1 (ChildMsg.user 0) ∉
      [Event.beforeStartCb 1, Event.deliver 1 ChildMsg.start] := by
  decide

/-- C3 as amended: in the scenario user-broadcast, Deploy(G), Start on a
fresh supervisor, G is deployed and receives Start, but G does not receive
the buffered broadcast (which was replayed, in arrival order, before the
Deploy and reached no registered subject); pre-start buffered messages are
replayed in arrival order upon Start, each handled as post-started, before
any further inbox message is consumed. -/
theorem prestart_buffer_replay (cid n g payload : Nat) :
    (Supervisor.runLoop (Supervisor.new ⟨cid, []⟩ n)
        [BastionMessage.message payload, BastionMessage.deploy ⟨g⟩, BastionMessage.start] =
      some (⟨⟨cid, [g]⟩, [g], [(g, 0)], [], [], SupervisionStrategy.oneForOne, false, [],
          true, n⟩,
        [Event.beforeStartCb g, Event.deliver g ChildMsg.start]) ∧
    Event.deliver g (ChildMsg.user payload) ∉
      [Event.beforeStartCb g, Event.deliver g ChildMsg.start]) ∧
    (∀ (s s1 : Supervisor) (ev : List Event) (rest : List BastionMessage),
      Supervisor.handleAll { s with started := true, preStartMsgs := [] } s.preStartMsgs =
        some (s1, true, ev) →
      s.runLoop (BastionMessage.start :: rest) =
        (s1.runLoop rest).map (fun p : Supervisor × List Event =>
          (p.1, s.bcast.sendChildren ChildMsg.start ++ ev ++ p.2))) := by
  refine ⟨⟨rfl, ?_⟩, ?_⟩
  · simp
  · intro s s1 ev rest hall
    have hstep : s.runLoop (BastionMessage.start :: rest) =
        match Supervisor.handleAll { s with started := true, preStartMsgs := [] }
            s.preStartMsgs with
        | none => none
        | some (s3, false, ev2) => some (s3, s.bcast.sendChildren ChildMsg.start ++ ev2)
        | some (s3, true, ev2) =>
          match s3.runLoop rest with
          | none => none
          | some (s4, ev3) =>
            some (s4, s.bcast.sendChildren ChildMsg.start ++ ev2 ++ ev3) := rfl
    rw [hstep, hall]
    cases hr : s1.runLoop rest with
    | none => simp [hr]
    | some p => simp [hr]


/-- Witness for C3's amended theorem: the scenario at concrete values, and
the replay property at a concrete supervisor with a buffered message. -/
theorem prestart_buffer_replay_witness :
    (Supervisor.runLoop (Supervisor.new ⟨0, []⟩ 2)
        [BastionMessage.message 0, BastionMessage.deploy ⟨1⟩, BastionMessage.start] =
      some (⟨⟨0, [1]⟩, [1], [(1, 0)], [], [], SupervisionStrategy.oneForOne, false, [],
          true, 2⟩,
        [Event.beforeStartCb 1, Event.deliver 1 ChildMsg.start]) ∧
    Event.deliver 1 (ChildMsg.user 0) ∉
      [Event.beforeStartCb 1, Event.deliver 1 ChildMsg.start]) ∧
    c3state.runLoop [BastionMessage.start] =
      (Supervisor.runLoop
          ⟨⟨0, []⟩, [], [], [], [], SupervisionStrategy.oneForAll, false, [], true, 1⟩ []).map
        (fun p : Supervisor × List Event =>
          (p.1, c3state.bcast.sendChildren ChildMsg.start ++ [] ++ p.2)) :=
  ⟨(prestart_buffer_replay 0 2 1 0).1,
    (prestart_buffer_replay 0 2 1 0).2 c3state
      ⟨⟨0, []⟩, [], [], [], [], SupervisionStrategy.oneForAll, false, [], true, 1⟩
      [] [] (by decide)⟩

/-! ## C4: reset of the supervisor itself -/

/-- C4 counterexample: `reset` never assigns `started`, so resetting a
started supervisor leaves `started = true` — not `false` as the claim
states. -/
theorem reset_self_leaves_started_counterexample :
    (Supervisor.resetSelf
        ⟨⟨0, []⟩, [5], [], [], [⟨5⟩], SupervisionStrategy.oneForAll, false, [], true, 6⟩
        (some ⟨7, []⟩)).map (fun p : Supervisor × List Event => p.1.started) =
      some true := by
  decide

theorem collectLoop_snd_independent (started : Bool)
    (pending : List (Supervised × Bool × Nat)) (bc bc' : Broadcast)
    (la : List (BastionId × Nat)) (ord : List BastionId) :
    (collectLoop started pending bc la ord).2 = (collectLoop started pending bc' la ord).2 := by
  induction pending generalizing bc bc' la ord with
  | nil => rfl
  | cons x rest ih =>
    obtain ⟨sub, killedFlag, nid⟩ := x
    simp only [collectLoop]
    rw [ih (bc.register (sub.reset ⟨nid, []⟩).id) (bc'.register (sub.reset ⟨nid, []⟩).id)]

theorem collectLoop_bcast_id (started : Bool)
    (pending : List (Supervised × Bool × Nat)) (bc : Broadcast)
    (la : List (BastionId × Nat)) (ord : List BastionId) :
    (collectLoop started pending bc la ord).1.id = bc.id := by
  induction pending generalizing bc la ord with
  | nil => rfl
  | cons x rest ih =>
    obtain ⟨sub, killedFlag, nid⟩ := x
    simp only [collectLoop]
    rw [ih]
    rfl

/-- The method `Supervisor::reset` agrees with `Supervisor::restart` over the full
range on every registry field and on the event trace; additionally it clears
`pre_start_msgs`, keeps `started` unchanged, and ends up owning the
broadcast supplied by the parent (or the cleared current one). -/
theorem resetSelf_matches_restart (s : Supervisor) (bcOpt : Option Broadcast)
    (s' : Supervisor) (ev : List Event) (h : s.resetSelf bcOpt = some (s', ev)) :
    ∃ s2 ev2, s.restart 0 = some (s2, ev2) ∧
      s'.order = s2.order ∧ s'.launched = s2.launched ∧ s'.stopped = s2.stopped ∧
      s'.killed = s2.killed ∧ s'.nextId = s2.nextId ∧ ev = ev2 ∧
      s'.preStartMsgs = [] ∧ s'.started = s.started ∧ s'.strategy = s.strategy ∧
      s'.bcast.id = (match bcOpt with
        | some b => b.id
        | none => s.bcast.id) := by
  have hk := killRange_eq s 0 (Nat.zero_le _)
  rcases bcOpt with _ | b
  · simp only [Supervisor.resetSelf, hk, List.drop_zero] at h
    simp only [Supervisor.restart, hk, List.drop_zero, List.take_zero]
    rcases hd : drainLoop s.nextId s.order s.stopped
        (s.killed ++ List.map (fun id => (⟨id⟩ : Supervised))
          (List.filter (fun id => decide (id ∈ s.launchedIds)) s.order))
      with _ | ⟨st1, ki1, pending, n1, ev2⟩
    · rw [hd] at h
      exact Option.noConfusion h
    · rw [hd] at h
      injection h with h2
      injection h2 with h3 h4
      subst h3
      subst h4
      have hsnd := collectLoop_snd_independent s.started pending
        ((Broadcast.clearChildren s.bcast)) s.bcast
        (List.filter (fun p => decide (p.1 ∉ s.order)) s.launched) []
      refine ⟨_, _, rfl, ?_, ?_, rfl, rfl, rfl, ?_, rfl, rfl, rfl, ?_⟩
      · show (collectLoop s.started pending (Broadcast.clearChildren s.bcast)
            (List.filter (fun p => decide (p.1 ∉ s.order)) s.launched) []).2.2.1 = _
        rw [hsnd]
      · show (collectLoop s.started pending (Broadcast.clearChildren s.bcast)
            (List.filter (fun p => decide (p.1 ∉ s.order)) s.launched) []).2.1 = _
        rw [hsnd]
      · show _ ++ ev2 ++ (collectLoop s.started pending (Broadcast.clearChildren s.bcast)
            (List.filter (fun p => decide (p.1 ∉ s.order)) s.launched) []).2.2.2 = _
        rw [hsnd]
      · show (collectLoop s.started pending (Broadcast.clearChildren s.bcast)
            (List.filter (fun p => decide (p.1 ∉ s.order)) s.launched) []).1.id = s.bcast.id
        rw [collectLoop_bcast_id]
        rfl
  · simp only [Supervisor.resetSelf, hk, List.drop_zero] at h
    simp only [Supervisor.restart, hk, List.drop_zero, List.take_zero]
    rcases hd : drainLoop s.nextId s.order s.stopped
        (s.killed ++ List.map (fun id => (⟨id⟩ : Supervised))
          (List.filter (fun id => decide (id ∈ s.launchedIds)) s.order))
      with _ | ⟨st1, ki1, pending, n1, ev2⟩
    · rw [hd] at h
      exact Option.noConfusion h
    · rw [hd] at h
      injection h with h2
      injection h2 with h3 h4
      subst h3
      subst h4
      have hsnd := collectLoop_snd_independent s.started pending b s.bcast
        (List.filter (fun p => decide (p.1 ∉ s.order)) s.launched) []
      refine ⟨_, _, rfl, ?_, ?_, rfl, rfl, rfl, ?_, rfl, rfl, rfl, ?_⟩
      · show (collectLoop s.started pending b
            (List.filter (fun p => decide (p.1 ∉ s.order)) s.launched) []).2.2.1 = _
        rw [hsnd]
      · show (collectLoop s.started pending b
            (List.filter (fun p => decide (p.1 ∉ s.order)) s.launched) []).2.1 = _
        rw [hsnd]
      · show _ ++ ev2 ++ (collectLoop s.started pending b
            (List.filter (fun p => decide (p.1 ∉ s.order)) s.launched) []).2.2.2 = _
        rw [hsnd]
      · show (collectLoop s.started pending b
            (List.filter (fun p => decide (p.1 ∉ s.order)) s.launched) []).1.id = b.id
        exact collectLoop_bcast_id s.started pending b _ []

/-- C4 as amended: resetting the supervisor itself performs the bulk-restart
procedure over the full range (the registry fields and the event trace agree
with `restart 0..`), swaps in the broadcast supplied by the parent, and
clears `pre-start-msgs`; however `started` is left unchanged (not set to
`false`), so a supervisor that was already started remains started. -/
theorem reset_self_bulk_restart (s : Supervisor) (b : Broadcast) (s' : Supervisor)
    (ev : List Event) (h : s.resetSelf (some b) = some (s', ev)) :
    ∃ s2 ev2, s.restart 0 = some (s2, ev2) ∧
      s'.order = s2.order ∧ s'.launched = s2.launched ∧ s'.stopped = s2.stopped ∧
      s'.killed = s2.killed ∧ s'.nextId = s2.nextId ∧ ev = ev2 ∧
      s'.preStartMsgs = [] ∧ s'.started = s.started ∧ s'.strategy = s.strategy ∧
      s'.bcast.id = b.id :=
  resetSelf_matches_restart s (some b) s' ev h

/-- Witness for C4's amended theorem at a concrete supervisor and parent
broadcast. -/
theorem reset_self_bulk_restart_witness :
    (Supervisor.new ⟨0, []⟩ 1).resetSelf (some ⟨5, []⟩) =
      some ({ Supervisor.new ⟨0, []⟩ 1 with bcast := ⟨5, []⟩ }, [Event.killChildren]) ∧
    ∃ s2 ev2, (Supervisor.new ⟨0, []⟩ 1).restart 0 = some (s2, ev2) ∧
      ({ Supervisor.new ⟨0, []⟩ 1 with bcast := ⟨5, []⟩ } : Supervisor).order = s2.order ∧
      ({ Supervisor.new ⟨0, []⟩ 1 with bcast := ⟨5, []⟩ } : Supervisor).launched = s2.launched ∧
      ({ Supervisor.new ⟨0, []⟩ 1 with bcast := ⟨5, []⟩ } : Supervisor).stopped = s2.stopped ∧
      ({ Supervisor.new ⟨0, []⟩ 1 with bcast := ⟨5, []⟩ } : Supervisor).killed = s2.killed ∧
      ({ Supervisor.new ⟨0, []⟩ 1 with bcast := ⟨5, []⟩ } : Supervisor).nextId = s2.nextId ∧
      [Event.killChildren] = ev2 ∧
      ({ Supervisor.new ⟨0, []⟩ 1 with bcast := ⟨5, []⟩ } : Supervisor).preStartMsgs = [] ∧
      ({ Supervisor.new ⟨0, []⟩ 1 with bcast := ⟨5, []⟩ } : Supervisor).started =
        (Supervisor.new ⟨0, []⟩ 1).started ∧
      ({ Supervisor.new ⟨0, []⟩ 1 with bcast := ⟨5, []⟩ } : Supervisor).strategy =
        (Supervisor.new ⟨0, []⟩ 1).strategy ∧
      ({ Supervisor.new ⟨0, []⟩ 1 with bcast := ⟨5, []⟩ } : Supervisor).bcast.id =
        Broadcast.id ⟨5, []⟩ :=
  ⟨by decide, reset_self_bulk_restart (Supervisor.new ⟨0, []⟩ 1) ⟨5, []⟩
    { Supervisor.new ⟨0, []⟩ 1 with bcast := ⟨5, []⟩ } [Event.killChildren] (by decide)⟩

/-! ## C2: callbacks on the bulk-restart killed path -/

/-- C2, evaluated at the failing input: a supervisor whose only subject (id
5) sits in `killed` is bulk-restarted.  The source computes its `killed`
flag with `self.killed.contains_key(..)` *after* having removed the subject
from `killed`, so the flag is always false: the subject taken from `killed`
never receives before-restart or after-restart; instead the stopped-path
callback before-start is invoked on the reset subject (id 6). -/
theorem restart_killed_path_callbacks_bug :
    Supervisor.restart
        ⟨⟨0, []⟩, [5], [], [], [⟨5⟩], SupervisionStrategy.oneForAll, false, [], true, 6⟩ 0 =
      some (⟨⟨0, [6]⟩, [6], [(6, 0)], [], [], SupervisionStrategy.oneForAll, false, [],
          true, 7⟩,
        [Event.killChildren, Event.beforeStartCb 6, Event.deliver 6 ChildMsg.start]) ∧
    Event.beforeRestartCb 5 ∉
      [Event.killChildren, Event.beforeStartCb 6, Event.deliver 6 ChildMsg.start] ∧
    Event.afterRestartCb 6 ∉
      [Event.killChildren, Event.beforeStartCb 6, Event.deliver 6 ChildMsg.start] := by
  decide

/-! ## C7: one-for-one recovery -/

theorem RegistryInv_ordinal_unique {s : Supervisor} (hs : RegistryInv s)
    {id : BastionId} {k k' : Nat}
    (h1 : (id, k) ∈ s.launched) (h2 : (id, k') ∈ s.launched) : k = k' := by
  have e1 := hs.2.2.2.2.2.2.2.1 (id, k) h1
  have e2 := hs.2.2.2.2.2.2.2.1 (id, k') h2
  have hk : k < s.order.length := (List.get?_eq_some.mp e1).1
  exact List.get?_inj hk hs.1 (e1.trans e2.symm)

theorem launched_find?_eq {s : Supervisor} (hs : RegistryInv s)
    {id : BastionId} {k : Nat} (hmem : (id, k) ∈ s.launched) :
    s.launched.find? (fun p => decide (p.1 = id)) = some (id, k) := by
  rcases hfind : s.launched.find? (fun p => decide (p.1 = id)) with _ | p
  · rw [List.find?_eq_none] at hfind
    exact absurd (by simp : decide (((id, k) : BastionId × Nat).1 = id) = true)
      (hfind _ hmem)
  · obtain ⟨a, b⟩ := p
    have hp1 := List.find?_some hfind
    simp only [decide_eq_true_eq] at hp1
    subst hp1
    have hpm := List.mem_of_find?_eq_some hfind
    have hbk : b = k := RegistryInv_ordinal_unique hs hpm hmem
    rw [hfind, hbk]

/-- C7: under one-for-one, recovering a faulted subject at ordinal `k` of
`launched` resets it against a newly constructed broadcast whose identifier
the fresh subject takes, re-inserts it into `launched` at the same ordinal
`k`, overwrites `order[k]` with the new identifier, and leaves every other
launched subject, the dormant collections and every other position of
`order` unchanged; before-restart runs on the old subject and after-restart
on the new one. -/
theorem one_for_one_recover_spec (s : Supervisor) (id : BastionId) (k : Nat)
    (hs : RegistryInv s) (hstrat : s.strategy = SupervisionStrategy.oneForOne)
    (hmem : (id, k) ∈ s.launched) :
    ∃ s', s.recover id = some (s', true,
        [Event.beforeRestartCb id, Event.afterRestartCb s.nextId] ++
          (if s.started = true then [Event.deliver s.nextId ChildMsg.start] else [])) ∧
      s'.launched = (s.nextId, k) :: s.launched.filter (fun p => decide (p.1 ≠ id)) ∧
      (s.nextId, k) ∈ s'.launched ∧
      (∀ p ∈ s.launched, p.1 ≠ id → p ∈ s'.launched) ∧
      s'.order = s.order.set k s.nextId ∧
      s'.order.get? k = some s.nextId ∧
      (∀ j, j ≠ k → s'.order.get? j = s.order.get? j) ∧
      s'.stopped = s.stopped ∧ s'.killed = s.killed ∧ s'.nextId = s.nextId + 1 := by
  have hfind := launched_find?_eq hs hmem
  have hget := hs.2.2.2.2.2.2.2.1 (id, k) hmem
  have hrec : s.recover id = some ({ s with
      bcast := (s.bcast.unregister id).register s.nextId
      launched := (s.nextId, k) :: s.launched.filter (fun p => decide (p.1 ≠ id))
      order := s.order.set k s.nextId
      nextId := s.nextId + 1 },
    true, [Event.beforeRestartCb id, Event.afterRestartCb s.nextId] ++
      (if s.started = true then [Event.deliver s.nextId ChildMsg.start] else [])) := by
    unfold Supervisor.recover
    rw [hstrat, hfind]
    rfl
  refine ⟨_, hrec, rfl, List.mem_cons_self _ _, ?_, rfl, ?_, ?_, rfl, rfl, rfl⟩
  · intro p hp hne
    exact List.mem_cons_of_mem _ (List.mem_filter.mpr ⟨hp, by simpa using hne⟩)
  · show (s.order.set k s.nextId).get? k = some s.nextId
    rw [List.get?_set_eq, hget]
    rfl
  · intro j hj
    show (s.order.set k s.nextId).get? j = s.order.get? j
    exact List.get?_set_ne _ _ (fun hkj => hj hkj.symm)


/-- Witness for C7 at a concrete supervisor, faulting the middle subject. -/
theorem one_for_one_recover_spec_witness :
    RegistryInv c7state ∧ c7state.strategy = SupervisionStrategy.oneForOne ∧
    ((11 : BastionId), (1 : Nat)) ∈ c7state.launched ∧
    (∃ s', c7state.recover 11 = some (s', true,
        [Event.beforeRestartCb 11, Event.afterRestartCb c7state.nextId] ++
          (if c7state.started = true
            then [Event.deliver c7state.nextId ChildMsg.start] else [])) ∧
      s'.launched = (c7state.nextId, 1) ::
        c7state.launched.filter (fun p => decide (p.1 ≠ 11)) ∧
      (c7state.nextId, 1) ∈ s'.launched ∧
      (∀ p ∈ c7state.launched, p.1 ≠ 11 → p ∈ s'.launched) ∧
      s'.order = c7state.order.set 1 c7state.nextId ∧
      s'.order.get? 1 = some c7state.nextId ∧
      (∀ j, j ≠ 1 → s'.order.get? j = c7state.order.get? j) ∧
      s'.stopped = c7state.stopped ∧ s'.killed = c7state.killed ∧
      s'.nextId = c7state.nextId + 1) :=
  ⟨by decide, by decide, by decide,
    one_for_one_recover_spec c7state 11 1 (by decide) (by decide) (by decide)⟩

/-! ## C6: deployment order across bulk restart -/



theorem find?_eq_some_decomp {A : Type} {p : A → Bool} {l : List A} {a : A}
    (h : l.find? p = some a) :
    ∃ u v, l = u ++ a :: v ∧ ∀ x ∈ u, p x = false := by
  induction l with
  | nil => cases h
  | cons x xs ih =>
    by_cases hx : p x = true
    · rw [List.find?_cons_of_pos _ hx] at h
      obtain rfl : x = a := by injection h
      exact ⟨[], xs, rfl, by simp⟩
    · rw [List.find?_cons_of_neg _ (by simpa using hx)] at h
      obtain ⟨u, v, rfl, hu⟩ := ih h
      refine ⟨x :: u, v, rfl, ?_⟩
      intro y hy
      rcases List.mem_cons.mp hy with rfl | hy2
      · simpa using hx
      · exact hu y hy2

theorem fuDrainAux_perm {A : Type} (l : List A) :
    ∀ (k fuel : Nat) (completed : List (Nat × A)), l.length ≤ fuel →
      completed.Perm (List.enumFrom k l) → fuDrainAux fuel k completed = l := by
  induction l with
  | nil =>
    intro k fuel completed _ hperm
    have hc : completed = [] := List.Perm.eq_nil (by simpa using hperm)
    subst hc
    cases fuel <;> rfl
  | cons a t ih =>
    intro k fuel completed hfuel hperm
    obtain ⟨f, rfl⟩ : ∃ f, fuel = f + 1 := by
      cases fuel
      · simp at hfuel
      · exact ⟨_, rfl⟩
    rw [List.enumFrom_cons] at hperm
    have hmem : (k, a) ∈ completed := hperm.mem_iff.mpr (List.mem_cons_self _ _)
    have huniq : ∀ x ∈ completed, x.1 = k → x = (k, a) := by
      rintro ⟨x1, x2⟩ hx hxk
      rcases List.mem_cons.mp (hperm.subset hx) with h1 | h2
      · exact h1
      · exfalso
        obtain ⟨hge, -, -⟩ := List.mem_enumFrom h2
        simp only at hxk
        omega
    have hfind : completed.find? (fun q => decide (q.1 = k)) = some (k, a) := by
      rcases hf : completed.find? (fun q => decide (q.1 = k)) with _ | q
      · rw [List.find?_eq_none] at hf
        exact absurd (by simp) (hf _ hmem)
      · have hq1 := List.find?_some hf
        simp only [decide_eq_true_eq] at hq1
        rw [hf, huniq q (List.mem_of_find?_eq_some hf) hq1]
    obtain ⟨u, v, hcv, hu⟩ := find?_eq_some_decomp hfind
    have herase : completed.eraseP (fun q => decide (q.1 = k)) = u ++ v := by
      rw [hcv, List.eraseP_append_right _ (by intro b hb; simp [hu b hb]),
        List.eraseP_cons_of_pos (by simp)]
    have hperm2 : (u ++ v).Perm (List.enumFrom (k + 1) t) := by
      have h1 : completed.Perm ((k, a) :: (u ++ v)) := by
        rw [hcv]
        exact List.perm_middle
      exact (h1.symm.trans hperm).cons_inv
    show (match completed.find? (fun q => decide (q.1 = k)) with
      | some q => q.2 :: fuDrainAux f (k + 1) (completed.eraseP (fun q => decide (q.1 = k)))
      | none => []) = a :: t
    rw [hfind, herase]
    have hlen : t.length ≤ f := by
      simp only [List.length_cons] at hfuel
      omega
    rw [ih (k + 1) f (u ++ v) hlen hperm2]

/-- Any completion order that is a permutation of the submitted futures
yields the submitted results in submission order. -/
theorem fuDrain_perm {A : Type} (l : List A) (completed : List (Nat × A))
    (hperm : completed.Perm l.enum) : fuDrain completed = l := by
  have hlen : completed.length = l.length := by
    simpa using hperm.length_eq
  show fuDrainAux completed.length 0 completed = l
  rw [hlen]
  exact fuDrainAux_perm l 0 l.length completed le_rfl (by simpa [List.enum] using hperm)

theorem collectLoop_order (started : Bool) (pending : List (Supervised × Bool × Nat))
    (bc : Broadcast) (la : List (BastionId × Nat)) (ord : List BastionId) :
    (collectLoop started pending bc la ord).2.2.1 = ord ++ pending.map (fun x => x.2.2) := by
  induction pending generalizing bc la ord with
  | nil => simp [collectLoop]
  | cons x rest ih =>
    obtain ⟨sub, flag, nid⟩ := x
    simp only [collectLoop]
    rw [ih]
    simp [Supervised.reset]

theorem takeSubject_eq_some {id : BastionId} {st ki : List Supervised}
    {sub : Supervised} {st1 ki1 : List Supervised}
    (h : takeSubject id st ki = some (sub, st1, ki1)) :
    (st.find? (fun x => decide (x.id = id)) = some sub ∧
      st1 = st.filter (fun x => decide (x.id ≠ id)) ∧ ki1 = ki) ∨
    (st.find? (fun x => decide (x.id = id)) = none ∧
      ki.find? (fun x => decide (x.id = id)) = some sub ∧
      st1 = st ∧ ki1 = ki.filter (fun x => decide (x.id ≠ id))) := by
  unfold takeSubject at h
  rcases hf1 : st.find? (fun x => decide (x.id = id)) with _ | s1 <;> rw [hf1] at h
  · rcases hf2 : ki.find? (fun x => decide (x.id = id)) with _ | s2 <;> rw [hf2] at h
    · exact Option.noConfusion h
    · injection h with h'
      simp only [Prod.mk.injEq] at h'
      obtain ⟨rfl, rfl, rfl⟩ := h'
      exact Or.inr ⟨hf1, hf2, rfl, rfl⟩
  · injection h with h'
    simp only [Prod.mk.injEq] at h'
    obtain ⟨rfl, rfl, rfl⟩ := h'
    exact Or.inl ⟨hf1, rfl, rfl⟩

theorem drainLoop_pending_ids (dr : List BastionId) :
    ∀ (n : Nat) (st ki st' ki' : List Supervised)
      (pending : List (Supervised × Bool × Nat)) (n' : Nat) (ev : List Event),
      drainLoop n dr st ki = some (st', ki', pending, n', ev) →
      pending.map (fun x => x.2.2) = (List.range dr.length).map (fun i => n + i) ∧
      n' = n + dr.length := by
  induction dr with
  | nil =>
    intro n st ki st' ki' pending n' ev h
    simp only [drainLoop, Option.some.injEq, Prod.mk.injEq] at h
    obtain ⟨-, -, rfl, rfl, -⟩ := h
    simp
  | cons id rest ih =>
    intro n st ki st' ki' pending n' ev h
    simp only [drainLoop, Option.bind_eq_some, Option.map_eq_some'] at h
    obtain ⟨⟨sub, st1, ki1⟩, -, r, hrec, hr⟩ := h
    obtain ⟨rst, rki, rpend, rn, rev⟩ := r
    simp only [Prod.mk.injEq] at hr
    obtain ⟨-, -, rfl, rfl, -⟩ := hr
    obtain ⟨hids, hn⟩ := ih (n + 1) st1 ki1 rst rki rpend rn rev hrec
    constructor
    · simp only [List.map_cons, hids, List.length_cons, List.range_succ_eq_map,
        List.map_map]
      refine congrArg (fun t => n :: t) ?_
      apply List.map_congr_left
      intro i _
      simp
      omega
    · simp only [hn, List.length_cons]
      omega

/-- C6: bulk restart rebuilds the drained range in submission order —
`order` becomes the untouched prefix (the surviving identifiers, in their
deployment order) followed by the freshly allocated identifiers of the
drained subjects, one per drained position, in submission order; the
collection loop consumes the `FuturesOrdered` drain, whose output is the
submission order no matter in which order the concurrent resets complete;
a deployment appends its identifier at the end of `order`; and the
one-for-one restart event overwrites only the faulted subject's position
of `order` with the fresh identifier, leaving every other position — and
hence the relative order of the surviving identifiers, which is their
deployment order — unchanged. -/
theorem bulk_restart_preserves_order :
    (∀ (s : Supervisor) (start : Nat) (s' : Supervisor) (ev : List Event),
      s.restart start = some (s', ev) →
      s'.order = s.order.take start ++
        (List.range (s.order.drop start).length).map (fun i => s.nextId + i)) ∧
    (∀ (started : Bool) (pending : List (Supervised × Bool × Nat))
      (completed : List (Nat × (Supervised × Bool × Nat))) (bc : Broadcast)
      (la : List (BastionId × Nat)) (ord : List BastionId),
      completed.Perm pending.enum →
      collectLoop started (fuDrain completed) bc la ord =
        collectLoop started pending bc la ord) ∧
    (∀ (t : Supervisor) (d : Supervised) (t' : Supervisor) (c : Bool) (ev2 : List Event),
      t.handle (BastionMessage.deploy d) = some (t', c, ev2) →
      t'.order = t.order ++ [d.id]) ∧
    (∀ (s : Supervisor) (id : BastionId) (k : Nat) (s' : Supervisor) (ok : Bool)
      (ev3 : List Event),
      RegistryInv s → s.strategy = SupervisionStrategy.oneForOne →
      (id, k) ∈ s.launched → s.recover id = some (s', ok, ev3) →
      s'.order = s.order.set k s.nextId ∧
      ∀ j, j ≠ k → s'.order.get? j = s.order.get? j) := by
  refine ⟨?_, ?_, ?_, ?_⟩
  · intro s start s' ev h
    have hle : start ≤ s.order.length := by
      by_contra hgt
      simp only [Supervisor.restart, Supervisor.killRange, if_neg hgt] at h
      exact Option.noConfusion h
    have hk := killRange_eq s start hle
    simp only [Supervisor.restart, hk] at h
    rcases hd : drainLoop s.nextId (s.order.drop start) s.stopped
        (s.killed ++ ((s.order.drop start).filter
          (fun id => decide (id ∈ s.launchedIds))).map (fun id => (⟨id⟩ : Supervised)))
      with _ | ⟨st1, ki1, pending, n1, ev2⟩
    · rw [hd] at h
      exact Option.noConfusion h
    · rw [hd] at h
      injection h with h2
      injection h2 with h3 h4
      subst h3
      show (collectLoop s.started pending s.bcast _ (s.order.take start)).2.2.1 = _
      rw [collectLoop_order]
      obtain ⟨hids, -⟩ := drainLoop_pending_ids (s.order.drop start) s.nextId s.stopped
        _ st1 ki1 pending n1 ev2 hd
      rw [hids]
  · intro started pending completed bc la ord hperm
    rw [fuDrain_perm pending completed hperm]
  · intro t d t' c ev2 hdep
    simp only [Supervisor.handle] at hdep
    injection hdep with h2
    injection h2 with h3 h4
    subst h3
    rfl
  · intro s id k s' ok ev3 hs hstrat hmem h
    have hfind := launched_find?_eq hs hmem
    have hrec : s.recover id = some ({ s with
        bcast := (s.bcast.unregister id).register s.nextId
        launched := (s.nextId, k) :: s.launched.filter (fun p => decide (p.1 ≠ id))
        order := s.order.set k s.nextId
        nextId := s.nextId + 1 },
      true, [Event.beforeRestartCb id, Event.afterRestartCb s.nextId] ++
        (if s.started = true then [Event.deliver s.nextId ChildMsg.start] else [])) := by
      unfold Supervisor.recover
      rw [hstrat, hfind]
      rfl
    rw [hrec] at h
    injection h with h2
    injection h2 with h3 h4
    subst h3
    refine ⟨rfl, ?_⟩
    intro j hj
    show (s.order.set k s.nextId).get? j = s.order.get? j
    exact List.get?_set_ne _ _ (fun hkj => hj hkj.symm)

/-- Witness for C6: the four parts instantiated at concrete inputs. -/
theorem bulk_restart_preserves_order_witness :
    Supervisor.order
        ⟨⟨0, [6]⟩, [6], [(6, 0)], [], [], SupervisionStrategy.oneForAll, false, [], true, 7⟩ =
      (Supervisor.order
          ⟨⟨0, []⟩, [5], [], [], [⟨5⟩], SupervisionStrategy.oneForAll, false, [], true,
            6⟩).take 0 ++
        (List.range ((Supervisor.order
          ⟨⟨0, []⟩, [5], [], [], [⟨5⟩], SupervisionStrategy.oneForAll, false, [], true,
            6⟩).drop 0).length).map (fun i => 6 + i) ∧
    collectLoop true (fuDrain [(0, (⟨5⟩, false, 6))]) ⟨0, []⟩ [] [] =
      collectLoop true [(⟨5⟩, false, 6)] ⟨0, []⟩ [] [] ∧
    Supervisor.order
        ⟨⟨0, [9]⟩, [9], [(9, 0)], [], [], SupervisionStrategy.oneForOne, false, [],
          false, 1⟩ =
      (Supervisor.new ⟨0, []⟩ 1).order ++ [Supervised.id ⟨9⟩] ∧
    (RegistryInv ⟨⟨0, [10, 11]⟩, [10, 11], [(10, 0), (11, 1)], [], [],
        SupervisionStrategy.oneForOne, false, [], true, 12⟩ ∧
      Supervisor.strategy ⟨⟨0, [10, 11]⟩, [10, 11], [(10, 0), (11, 1)], [], [],
        SupervisionStrategy.oneForOne, false, [], true, 12⟩ =
          SupervisionStrategy.oneForOne ∧
      ((11 : BastionId), (1 : Nat)) ∈ Supervisor.launched
        ⟨⟨0, [10, 11]⟩, [10, 11], [(10, 0), (11, 1)], [], [],
          SupervisionStrategy.oneForOne, false, [], true, 12⟩ ∧
      Supervisor.recover ⟨⟨0, [10, 11]⟩, [10, 11], [(10, 0), (11, 1)], [], [],
          SupervisionStrategy.oneForOne, false, [], true, 12⟩ 11 =
        some (⟨⟨0, [10, 12]⟩, [10, 12], [(12, 1), (10, 0)], [], [],
            SupervisionStrategy.oneForOne, false, [], true, 13⟩, true,
          [Event.beforeRestartCb 11, Event.afterRestartCb 12,
            Event.deliver 12 ChildMsg.start]) ∧
      Supervisor.order ⟨⟨0, [10, 12]⟩, [10, 12], [(12, 1), (10, 0)], [], [],
          SupervisionStrategy.oneForOne, false, [], true, 13⟩ =
        (Supervisor.order ⟨⟨0, [10, 11]⟩, [10, 11], [(10, 0), (11, 1)], [], [],
          SupervisionStrategy.oneForOne, false, [], true, 12⟩).set 1 12 ∧
      ∀ j, j ≠ 1 →
        (Supervisor.order ⟨⟨0, [10, 12]⟩, [10, 12], [(12, 1), (10, 0)], [], [],
          SupervisionStrategy.oneForOne, false, [], true, 13⟩).get? j =
        (Supervisor.order ⟨⟨0, [10, 11]⟩, [10, 11], [(10, 0), (11, 1)], [], [],
          SupervisionStrategy.oneForOne, false, [], true, 12⟩).get? j) :=
  ⟨bulk_restart_preserves_order.1
      ⟨⟨0, []⟩, [5], [], [], [⟨5⟩], SupervisionStrategy.oneForAll, false, [], true, 6⟩ 0
      ⟨⟨0, [6]⟩, [6], [(6, 0)], [], [], SupervisionStrategy.oneForAll, false, [], true, 7⟩
      [Event.killChildren, Event.beforeStartCb 6, Event.deliver 6 ChildMsg.start]
      (by decide),
    bulk_restart_preserves_order.2.1 true [(⟨5⟩, false, 6)] [(0, (⟨5⟩, false, 6))]
      ⟨0, []⟩ [] [] (by decide),
    bulk_restart_preserves_order.2.2.1 (Supervisor.new ⟨0, []⟩ 1) ⟨9⟩
      ⟨⟨0, [9]⟩, [9], [(9, 0)], [], [], SupervisionStrategy.oneForOne, false, [],
        false, 1⟩ true [Event.beforeStartCb 9] (by decide),
    by decide, by decide, by decide, by decide,
    bulk_restart_preserves_order.2.2.2
      ⟨⟨0, [10, 11]⟩, [10, 11], [(10, 0), (11, 1)], [], [],
        SupervisionStrategy.oneForOne, false, [], true, 12⟩ 11 1
      ⟨⟨0, [10, 12]⟩, [10, 12], [(12, 1), (10, 0)], [], [],
        SupervisionStrategy.oneForOne, false, [], true, 13⟩ true
      [Event.beforeRestartCb 11, Event.afterRestartCb 12,
        Event.deliver 12 ChildMsg.start]
      (by decide) (by decide) (by decide) (by decide)⟩

/-! ## C1: the registry invariant -/

theorem mem_keys_filter_not_mem {la : List (BastionId × Nat)} {D : List BastionId}
    {id : BastionId} :
    id ∈ (la.filter (fun p => decide (p.1 ∉ D))).map (fun p => p.1) ↔
      id ∈ la.map (fun p => p.1) ∧ id ∉ D := by
  constructor
  · intro h
    rcases List.mem_map.mp h with ⟨p, hp, rfl⟩
    rcases List.mem_filter.mp hp with ⟨hpl, hpd⟩
    simp only [decide_eq_true_eq] at hpd
    exact ⟨List.mem_map_of_mem _ hpl, hpd⟩
  · rintro ⟨h1, h2⟩
    rcases List.mem_map.mp h1 with ⟨p, hp, rfl⟩
    exact List.mem_map_of_mem _ (List.mem_filter.mpr ⟨hp, by simpa using h2⟩)

theorem mem_subIds_filter {l : List Supervised} {D : List BastionId} {id : BastionId} :
    id ∈ (l.filter (fun x => decide (x.id ∉ D))).map (fun x => x.id) ↔
      id ∈ l.map (fun x => x.id) ∧ id ∉ D := by
  constructor
  · intro h
    rcases List.mem_map.mp h with ⟨x, hx, rfl⟩
    rcases List.mem_filter.mp hx with ⟨hxl, hxd⟩
    simp only [decide_eq_true_eq] at hxd
    exact ⟨List.mem_map_of_mem _ hxl, hxd⟩
  · rintro ⟨h1, h2⟩
    rcases List.mem_map.mp h1 with ⟨x, hx, rfl⟩
    exact List.mem_map_of_mem _ (List.mem_filter.mpr ⟨hx, by simpa using h2⟩)

theorem subIds_append_mk (ki : List Supervised) (A : List BastionId) :
    (ki ++ A.map (fun id => (⟨id⟩ : Supervised))).map (fun x => x.id) =
      ki.map (fun x => x.id) ++ A := by
  rw [List.map_append, List.map_map]
  simp [Function.comp_def]

theorem mem_affected_iff {s : Supervisor} {start : Nat} {id : BastionId} :
    id ∈ (s.order.drop start).filter (fun i => decide (i ∈ s.launchedIds)) ↔
      id ∈ s.order.drop start ∧ id ∈ s.launchedIds := by
  rw [List.mem_filter]
  simp

theorem RegistryInv_killRange {s : Supervisor} {start : Nat} {s' : Supervisor}
    {ev : List Event} (hs : RegistryInv s) (h : s.killRange start = some (s', ev)) :
    RegistryInv s' := by
  obtain ⟨h1, h2, h3, h4, h5, h6, h7, h8, h9⟩ := hs
  have hle : start ≤ s.order.length := by
    by_contra hgt
    rw [Supervisor.killRange, if_neg hgt] at h
    exact Option.noConfusion h
  rw [killRange_eq s start hle] at h
  injection h with h2'
  injection h2' with hrec hev
  subst hrec
  refine ⟨h1, ?_, ?_, h4, ?_, ?_, ?_, ?_, h9⟩
  · intro id hid
    rcases h2 id hid with hl | hst | hki
    · by_cases hd : id ∈ s.order.drop start
      · refine Or.inr (Or.inr ?_)
        show id ∈ (s.killed ++ _).map _
        rw [subIds_append_mk]
        exact List.mem_append.mpr (Or.inr (mem_affected_iff.mpr ⟨hd, hl⟩))
      · exact Or.inl (mem_keys_filter_not_mem.mpr ⟨hl, hd⟩)
    · exact Or.inr (Or.inl hst)
    · refine Or.inr (Or.inr ?_)
      show id ∈ (s.killed ++ _).map _
      rw [subIds_append_mk]
      exact List.mem_append.mpr (Or.inl hki)
  · intro id hid
    exact h3 id (mem_keys_filter_not_mem.mp hid).1
  · intro id hid
    simp only [Supervisor.killedIds, subIds_append_mk] at hid
    rcases List.mem_append.mp hid with hki | ha
    · exact h5 id hki
    · exact List.mem_of_mem_drop (mem_affected_iff.mp ha).1
  · intro id hid
    obtain ⟨hl, hd⟩ := mem_keys_filter_not_mem.mp hid
    refine ⟨(h6 id hl).1, ?_⟩
    intro hk
    simp only [Supervisor.killedIds, subIds_append_mk] at hk
    rcases List.mem_append.mp hk with hki | ha
    · exact (h6 id hl).2 hki
    · exact hd (mem_affected_iff.mp ha).1
  · intro id hst
    intro hk
    simp only [Supervisor.killedIds, subIds_append_mk] at hk
    rcases List.mem_append.mp hk with hki | ha
    · exact h7 id hst hki
    · exact (h6 id (mem_affected_iff.mp ha).2).1 hst
  · intro p hp
    exact h8 p (List.mem_filter.mp hp).1

theorem RegistryInv_stopRange {s : Supervisor} {start : Nat} {s' : Supervisor}
    {ev : List Event} (hs : RegistryInv s) (h : s.stopRange start = some (s', ev)) :
    RegistryInv s' := by
  obtain ⟨h1, h2, h3, h4, h5, h6, h7, h8, h9⟩ := hs
  have hle : start ≤ s.order.length := by
    by_contra hgt
    rw [Supervisor.stopRange, if_neg hgt] at h
    exact Option.noConfusion h
  rw [stopRange_eq s start hle] at h
  injection h with h2'
  injection h2' with hrec hev
  subst hrec
  refine ⟨h1, ?_, ?_, ?_, h5, ?_, ?_, ?_, h9⟩
  · intro id hid
    rcases h2 id hid with hl | hst | hki
    · by_cases hd : id ∈ s.order.drop start
      · refine Or.inr (Or.inl ?_)
        show id ∈ (s.stopped ++ _).map _
        rw [subIds_append_mk]
        exact List.mem_append.mpr (Or.inr (mem_affected_iff.mpr ⟨hd, hl⟩))
      · exact Or.inl (mem_keys_filter_not_mem.mpr ⟨hl, hd⟩)
    · refine Or.inr (Or.inl ?_)
      show id ∈ (s.stopped ++ _).map _
      rw [subIds_append_mk]
      exact List.mem_append.mpr (Or.inl hst)
    · exact Or.inr (Or.inr hki)
  · intro id hid
    exact h3 id (mem_keys_filter_not_mem.mp hid).1
  · intro id hid
    simp only [Supervisor.stoppedIds, subIds_append_mk] at hid
    rcases List.mem_append.mp hid with hst | ha
    · exact h4 id hst
    · exact List.mem_of_mem_drop (mem_affected_iff.mp ha).1
  · intro id hid
    obtain ⟨hl, hd⟩ := mem_keys_filter_not_mem.mp hid
    refine ⟨?_, (h6 id hl).2⟩
    intro hk
    simp only [Supervisor.stoppedIds, subIds_append_mk] at hk
    rcases List.mem_append.mp hk with hst | ha
    · exact (h6 id hl).1 hst
    · exact hd (mem_affected_iff.mp ha).1
  · intro id hst
    simp only [Supervisor.stoppedIds, subIds_append_mk] at hst
    rcases List.mem_append.mp hst with hso | ha
    · exact h7 id hso
    · exact (h6 id (mem_affected_iff.mp ha).2).2
  · intro p hp
    exact h8 p (List.mem_filter.mp hp).1

theorem collectLoop_registry (started : Bool) (pending : List (Supervised × Bool × Nat)) :
    ∀ (bc : Broadcast) (la : List (BastionId × Nat)) (ord : List BastionId),
      (pending.map (fun x => x.2.2)).Nodup →
      (∀ nid ∈ pending.map (fun x => x.2.2), nid ∉ la.map (fun p => p.1)) →
      (∀ nid ∈ pending.map (fun x => x.2.2), nid ∉ ord) →
      (∀ p ∈ la, ord.get? p.2 = some p.1) →
      (∀ p ∈ (collectLoop started pending bc la ord).2.1,
        (collectLoop started pending bc la ord).2.2.1.get? p.2 = some p.1) ∧
      (∀ id, id ∈ (collectLoop started pending bc la ord).2.1.map (fun p => p.1) ↔
        id ∈ la.map (fun p => p.1) ∨ id ∈ pending.map (fun x => x.2.2)) := by
  induction pending with
  | nil =>
    intro bc la ord _ _ _ hord
    constructor
    · intro p hp
      exact hord p hp
    · intro id
      simp [collectLoop]
  | cons x rest ih =>
    intro bc la ord hn hfresh1 hfresh2 hord
    obtain ⟨sub, flag, nid⟩ := x
    simp only [List.map_cons] at hn hfresh1 hfresh2
    have hnid_la : nid ∉ la.map (fun p => p.1) := hfresh1 nid (List.mem_cons_self _ _)
    have hnid_ord : nid ∉ ord := hfresh2 nid (List.mem_cons_self _ _)
    have hfil : la.filter (fun p => decide (p.1 ≠ nid)) = la := filter_key_eq_self hnid_la
    simp only [collectLoop, Supervised.reset, hfil]
    have hord1 : ∀ p ∈ (nid, ord.length) :: la, (ord ++ [nid]).get? p.2 = some p.1 := by
      intro p hp
      rcases List.mem_cons.mp hp with rfl | hpl
      · exact List.get?_concat_length ord nid
      · have hlt : p.2 < ord.length := (List.get?_eq_some.mp (hord p hpl)).1
        rw [List.get?_append hlt]
        exact hord p hpl
    have hfresh1' : ∀ m ∈ rest.map (fun x => x.2.2),
        m ∉ ((nid, ord.length) :: la).map (fun p => p.1) := by
      intro m hm hmem
      rcases List.mem_cons.mp hmem with h0 | h1
      · have h0' : m = nid := by simpa using h0
        subst h0'
        exact (List.nodup_cons.mp hn).1 hm
      · exact hfresh1 m (List.mem_cons_of_mem _ hm) h1
    have hfresh2' : ∀ m ∈ rest.map (fun x => x.2.2), m ∉ ord ++ [nid] := by
      intro m hm hmem
      rcases List.mem_append.mp hmem with h0 | h1
      · exact hfresh2 m (List.mem_cons_of_mem _ hm) h0
      · have h1' : m = nid := List.mem_singleton.mp h1
        subst h1'
        exact (List.nodup_cons.mp hn).1 hm
    obtain ⟨ihA, ihB⟩ := ih (bc.register nid) ((nid, ord.length) :: la) (ord ++ [nid])
      (List.nodup_cons.mp hn).2 hfresh1' hfresh2' hord1
    constructor
    · exact ihA
    · intro id
      rw [ihB id]
      simp only [List.map_cons, List.mem_cons]
      constructor
      · rintro (h0 | h1) 
        · rcases h0 with h0a | h0b
          · exact Or.inr (Or.inl h0a)
          · exact Or.inl h0b
        · exact Or.inr (Or.inr h1)
      · rintro (h0 | h1 | h2)
        · exact Or.inl (Or.inr h0)
        · exact Or.inl (Or.inl h1)
        · exact Or.inr h2

theorem subIds_filter_filter (l : List Supervised) (id : BastionId) (rest : List BastionId) :
    (l.filter (fun x => decide (x.id ≠ id))).filter (fun x => decide (x.id ∉ rest)) =
      l.filter (fun x => decide (x.id ∉ id :: rest)) := by
  rw [List.filter_filter]
  apply List.filter_congr
  intro x _
  by_cases hx1 : x.id = id
  · simp [hx1]
  · by_cases hx2 : x.id ∈ rest <;> simp [hx1, hx2]

theorem subIds_filter_skip (l : List Supervised) (id : BastionId) (rest : List BastionId)
    (hnot : ∀ x ∈ l, x.id ≠ id) :
    l.filter (fun x => decide (x.id ∉ rest)) = l.filter (fun x => decide (x.id ∉ id :: rest)) := by
  apply List.filter_congr
  intro x hx
  have := hnot x hx
  by_cases hx2 : x.id ∈ rest <;> simp [this, hx2]

theorem find?_subIds_eq_none {l : List Supervised} {id : BastionId}
    (h : l.find? (fun x => decide (x.id = id)) = none) : ∀ x ∈ l, x.id ≠ id := by
  rw [List.find?_eq_none] at h
  intro x hx
  have := h x hx
  simpa using this

theorem drainLoop_registry (dr : List BastionId) :
    ∀ (n : Nat) (st ki st' ki' : List Supervised)
      (pending : List (Supervised × Bool × Nat)) (n' : Nat) (ev : List Event),
      (∀ id ∈ st.map (fun x => x.id), id ∉ ki.map (fun x => x.id)) →
      drainLoop n dr st ki = some (st', ki', pending, n', ev) →
      st' = st.filter (fun x => decide (x.id ∉ dr)) ∧
      ki' = ki.filter (fun x => decide (x.id ∉ dr)) := by
  induction dr with
  | nil =>
    intro n st ki st' ki' pending n' ev _ h
    simp only [drainLoop, Option.some.injEq, Prod.mk.injEq] at h
    obtain ⟨rfl, rfl, -, -, -⟩ := h
    constructor <;>
    · rw [eq_comm, List.filter_eq_self]
      intro x _
      simp
  | cons id rest ih =>
    intro n st ki st' ki' pending n' ev hdisj h
    simp only [drainLoop, Option.bind_eq_some, Option.map_eq_some'] at h
    obtain ⟨⟨sub, st1, ki1⟩, htake, r, hrec, hr⟩ := h
    obtain ⟨rst, rki, rpend, rn, rev⟩ := r
    simp only [Prod.mk.injEq] at hr
    obtain ⟨rfl, rfl, -, -, -⟩ := hr
    rcases takeSubject_eq_some htake with ⟨hf, hst1, hki1⟩ | ⟨hf1, hf2, hst1, hki1⟩
    · -- taken from stopped
      subst hst1
      rw [hki1] at hrec
      have hdisj1 : ∀ i ∈ (st.filter (fun x => decide (x.id ≠ id))).map (fun x => x.id),
          i ∉ ki.map (fun x => x.id) := by
        intro i hi
        exact hdisj i (List.mem_map.mpr
          ⟨_, (List.mem_filter.mp (List.mem_map.mp hi).choose_spec.1).1,
            (List.mem_map.mp hi).choose_spec.2⟩)
      obtain ⟨hst, hki⟩ := ih (n + 1) _ _ rst rki rpend rn rev hdisj1 hrec
      refine ⟨?_, ?_⟩
      · rw [hst, subIds_filter_filter]
      · rw [hki]
        apply subIds_filter_skip
        intro x hx hxid
        have hidm : id ∈ st.map (fun y => y.id) := by
          have hsubm := List.mem_of_find?_eq_some hf
          have hsubid := List.find?_some hf
          simp only [decide_eq_true_eq] at hsubid
          exact List.mem_map.mpr ⟨sub, hsubm, hsubid⟩
        exact hdisj id hidm (List.mem_map.mpr ⟨x, hx, hxid⟩)
    · -- taken from killed
      rw [hst1] at hrec
      subst hki1
      have hnotst : ∀ x ∈ st, x.id ≠ id := find?_subIds_eq_none hf1
      have hdisj1 : ∀ i ∈ st.map (fun x => x.id),
          i ∉ (ki.filter (fun x => decide (x.id ≠ id))).map (fun x => x.id) := by
        intro i hi hmem
        exact hdisj i hi (List.mem_map.mpr
          ⟨_, (List.mem_filter.mp (List.mem_map.mp hmem).choose_spec.1).1,
            (List.mem_map.mp hmem).choose_spec.2⟩)
      obtain ⟨hst, hki⟩ := ih (n + 1) _ _ rst rki rpend rn rev hdisj1 hrec
      refine ⟨?_, ?_⟩
      · rw [hst]
        exact subIds_filter_skip st id rest hnotst
      · rw [hki, subIds_filter_filter]

theorem RegistryInv_restart {s : Supervisor} {start : Nat} {s' : Supervisor} {ev : List Event}
    (hs : RegistryInv s) (h : s.restart start = some (s', ev)) : RegistryInv s' := by
  obtain ⟨h1, h2, h3, h4, h5, h6, h7, h8, h9⟩ := hs
  have hle : start ≤ s.order.length := by
    by_contra hgt
    simp only [Supervisor.restart, Supervisor.killRange, if_neg hgt] at h
    exact Option.noConfusion h
  have hk := killRange_eq s start hle
  have hsK := RegistryInv_killRange ⟨h1, h2, h3, h4, h5, h6, h7, h8, h9⟩ hk
  simp only [Supervisor.restart, hk] at h
  rcases hd : drainLoop s.nextId (s.order.drop start) s.stopped
      (s.killed ++ ((s.order.drop start).filter
        (fun id => decide (id ∈ s.launchedIds))).map (fun id => (⟨id⟩ : Supervised)))
    with _ | ⟨st1, ki1, pending, n1, ev2⟩
  · rw [hd] at h
    exact Option.noConfusion h
  · rw [hd] at h
    injection h with hA
    injection hA with hB hC
    subst hB
    obtain ⟨hids, hn1⟩ := drainLoop_pending_ids (s.order.drop start) s.nextId _ _
      st1 ki1 pending n1 ev2 hd
    obtain ⟨hst1, hki1⟩ := drainLoop_registry (s.order.drop start) s.nextId s.stopped _
      st1 ki1 pending n1 ev2 hsK.2.2.2.2.2.2.1 hd
    have hbig : ∀ nid ∈ pending.map (fun x => x.2.2), s.nextId ≤ nid := by
      rw [hids]
      intro nid hm
      rcases List.mem_map.mp hm with ⟨i, -, rfl⟩
      omega
    have hsmall : ∀ nid ∈ pending.map (fun x => x.2.2), nid < n1 := by
      rw [hids]
      intro nid hm
      rcases List.mem_map.mp hm with ⟨i, hi, rfl⟩
      have := List.mem_range.mp hi
      omega
    have hnodup_new : (pending.map (fun x => x.2.2)).Nodup := by
      rw [hids]
      exact List.Nodup.map (fun a b hab => by omega) (List.nodup_range _)
    have hfresh1 : ∀ nid ∈ pending.map (fun x => x.2.2),
        nid ∉ (s.launched.filter (fun p => decide (p.1 ∉ s.order.drop start))).map
          (fun p => p.1) := by
      intro nid hm hmem
      have hio : nid ∈ s.order := h3 nid (mem_keys_filter_not_mem.mp hmem).1
      have ha : nid < s.nextId := h9 nid hio
      have hb : s.nextId ≤ nid := hbig nid hm
      exact absurd ha (Nat.not_lt.mpr hb)
    have hfresh2 : ∀ nid ∈ pending.map (fun x => x.2.2), nid ∉ s.order.take start := by
      intro nid hm hmem
      have hio : nid ∈ s.order := (List.take_sublist start s.order).subset hmem
      have ha : nid < s.nextId := h9 nid hio
      have hb : s.nextId ≤ nid := hbig nid hm
      exact absurd ha (Nat.not_lt.mpr hb)
    have hordK : ∀ p ∈ s.launched.filter (fun p => decide (p.1 ∉ s.order.drop start)),
        (s.order.take start).get? p.2 = some p.1 := by
      intro p hp
      obtain ⟨hpl, hpd⟩ := List.mem_filter.mp hp
      simp only [decide_eq_true_eq] at hpd
      have hg := h8 p hpl
      have hlt : p.2 < start := by
        by_contra hge
        push_neg at hge
        have hdg : (s.order.drop start).get? (p.2 - start) = some p.1 := by
          rw [List.get?_drop, show start + (p.2 - start) = p.2 from by omega]
          exact hg
        exact hpd (List.get?_mem hdg)
      rw [List.get?_take hlt]
      exact hg
    obtain ⟨hcolA, hcolB⟩ := collectLoop_registry s.started pending s.bcast
      (s.launched.filter (fun p => decide (p.1 ∉ s.order.drop start)))
      (s.order.take start) hnodup_new hfresh1 hfresh2 hordK
    have hordC := collectLoop_order s.started pending s.bcast
      (s.launched.filter (fun p => decide (p.1 ∉ s.order.drop start))) (s.order.take start)
    have hmem_take : ∀ id, id ∈ s.order → id ∉ s.order.drop start →
        id ∈ s.order.take start := by
      intro id hio hnd
      rw [← List.take_append_drop start s.order] at hio
      rcases List.mem_append.mp hio with hm | hm
      · exact hm
      · exact absurd hm hnd
    have htake_nd : ∀ id ∈ s.order.take start, id ∉ s.order.drop start :=
      fun id hm hd' => List.disjoint_take_drop h1 le_rfl hm hd'
    have hki1_mem : ∀ id, id ∈ ki1.map (fun x => x.id) ↔
        (id ∈ s.killedIds ∧ id ∉ s.order.drop start) := by
      intro id
      rw [hki1]
      rw [mem_subIds_filter, subIds_append_mk]
      constructor
      · rintro ⟨hm, hnd⟩
        rcases List.mem_append.mp hm with hm1 | hm2
        · exact ⟨hm1, hnd⟩
        · exact absurd (mem_affected_iff.mp hm2).1 hnd
      · rintro ⟨hm, hnd⟩
        exact ⟨List.mem_append.mpr (Or.inl hm), hnd⟩
    have hst1_mem : ∀ id, id ∈ st1.map (fun x => x.id) ↔
        (id ∈ s.stoppedIds ∧ id ∉ s.order.drop start) := by
      intro id
      rw [hst1, mem_subIds_filter]
      exact Iff.rfl
    refine ⟨?_, ?_, ?_, ?_, ?_, ?_, ?_, hcolA, ?_⟩
    · show ((collectLoop s.started pending s.bcast _ _).2.2.1).Nodup
      rw [hordC]
      rw [List.nodup_append]
      refine ⟨(List.take_sublist start s.order).nodup h1, hnodup_new, ?_⟩
      intro id hmt hmn
      have ha : id < s.nextId := h9 id ((List.take_sublist start s.order).subset hmt)
      have hb : s.nextId ≤ id := hbig id hmn
      exact absurd ha (Nat.not_lt.mpr hb)
    · intro id hid
      rw [show Supervisor.order _ = _ from rfl, hordC] at hid
      rcases List.mem_append.mp hid with hmt | hmn
      · have hio : id ∈ s.order := (List.take_sublist start s.order).subset hmt
        have hnd : id ∉ s.order.drop start := htake_nd id hmt
        rcases h2 id hio with hl | hst | hki
        · exact Or.inl ((hcolB id).mpr (Or.inl (mem_keys_filter_not_mem.mpr ⟨hl, hnd⟩)))
        · exact Or.inr (Or.inl ((hst1_mem id).mpr ⟨hst, hnd⟩))
        · exact Or.inr (Or.inr ((hki1_mem id).mpr ⟨hki, hnd⟩))
      · exact Or.inl ((hcolB id).mpr (Or.inr hmn))
    · intro id hid
      show id ∈ (collectLoop s.started pending s.bcast _ _).2.2.1
      rw [hordC]
      rcases (hcolB id).mp hid with hk' | hn'
      · obtain ⟨hl, hnd⟩ := mem_keys_filter_not_mem.mp hk'
        exact List.mem_append.mpr (Or.inl (hmem_take id (h3 id hl) hnd))
      · exact List.mem_append.mpr (Or.inr hn')
    · intro id hid
      show id ∈ (collectLoop s.started pending s.bcast _ _).2.2.1
      rw [hordC]
      obtain ⟨hst, hnd⟩ := (hst1_mem id).mp hid
      exact List.mem_append.mpr (Or.inl (hmem_take id (h4 id hst) hnd))
    · intro id hid
      show id ∈ (collectLoop s.started pending s.bcast _ _).2.2.1
      rw [hordC]
      obtain ⟨hki, hnd⟩ := (hki1_mem id).mp hid
      exact List.mem_append.mpr (Or.inl (hmem_take id (h5 id hki) hnd))
    · intro id hid
      rcases (hcolB id).mp hid with hk' | hn'
      · obtain ⟨hl, hnd⟩ := mem_keys_filter_not_mem.mp hk'
        constructor
        · intro hc
          exact (h6 id hl).1 ((hst1_mem id).mp hc).1
        · intro hc
          exact (h6 id hl).2 ((hki1_mem id).mp hc).1
      · constructor
        · intro hc
          have hio : id ∈ s.order := h4 id ((hst1_mem id).mp hc).1
          have ha : id < s.nextId := h9 id hio
          have hb : s.nextId ≤ id := hbig id hn'
          exact absurd ha (Nat.not_lt.mpr hb)
        · intro hc
          have hio : id ∈ s.order := h5 id ((hki1_mem id).mp hc).1
          have ha : id < s.nextId := h9 id hio
          have hb : s.nextId ≤ id := hbig id hn'
          exact absurd ha (Nat.not_lt.mpr hb)
    · intro id hid hc
      obtain ⟨hst, -⟩ := (hst1_mem id).mp hid
      obtain ⟨hki, -⟩ := (hki1_mem id).mp hc
      exact h7 id hst hki
    · intro id hid
      rw [show Supervisor.order _ = _ from rfl, hordC] at hid
      show id < n1
      rcases List.mem_append.mp hid with hmt | hmn
      · have ha : id < s.nextId := h9 id ((List.take_sublist start s.order).subset hmt)
        have hb : s.nextId ≤ n1 := by
          rw [hn1]
          exact Nat.le_add_right _ _
        exact lt_of_lt_of_le ha hb
      · exact hsmall id hmn

theorem mem_keys_filter_ne {la : List (BastionId × Nat)} {id x : BastionId} :
    x ∈ (la.filter (fun p => decide (p.1 ≠ id))).map (fun p => p.1) ↔
      x ∈ la.map (fun p => p.1) ∧ x ≠ id := by
  constructor
  · intro h
    rcases List.mem_map.mp h with ⟨p, hp, rfl⟩
    rcases List.mem_filter.mp hp with ⟨hpl, hpd⟩
    simp only [decide_eq_true_eq] at hpd
    exact ⟨List.mem_map_of_mem _ hpl, hpd⟩
  · rintro ⟨h1, h2⟩
    rcases List.mem_map.mp h1 with ⟨p, hp, rfl⟩
    exact List.mem_map_of_mem _ (List.mem_filter.mpr ⟨hp, by simpa using h2⟩)

theorem mem_set_unique {l : List BastionId} {k : Nat} {old newv x : BastionId}
    (hnd : l.Nodup) (hget : l.get? k = some old) :
    x ∈ l.set k newv ↔ (x ∈ l ∧ x ≠ old) ∨ x = newv := by
  have hk : k < l.length := (List.get?_eq_some.mp hget).1
  constructor
  · intro hx
    rcases List.mem_iff_get?.mp hx with ⟨j, hj⟩
    by_cases hjk : k = j
    · subst hjk
      rw [List.get?_set_eq, hget] at hj
      right
      simpa using hj.symm
    · rw [List.get?_set_ne _ _ hjk] at hj
      left
      refine ⟨List.get?_mem hj, ?_⟩
      intro hxo
      subst hxo
      exact hjk (List.get?_inj hk hnd (hget.trans hj.symm))
  · rintro (⟨hxl, hxo⟩ | rfl)
    · rcases List.mem_iff_get?.mp hxl with ⟨j, hj⟩
      have hjk : k ≠ j := by
        intro he
        subst he
        rw [hget] at hj
        exact hxo (by simpa using hj.symm)
      refine List.mem_iff_get?.mpr ⟨j, ?_⟩
      rw [List.get?_set_ne _ _ hjk]
      exact hj
    · refine List.mem_iff_get?.mpr ⟨k, ?_⟩
      rw [List.get?_set_eq, hget]
      rfl

theorem RegistryInv_recover {s : Supervisor} {id : BastionId} {s1 : Supervisor}
    {ok : Bool} {ev : List Event} (hs : RegistryInv s)
    (h : s.recover id = some (s1, ok, ev)) : RegistryInv s1 := by
  obtain ⟨h1, h2, h3, h4, h5, h6, h7, h8, h9⟩ := hs
  unfold Supervisor.recover at h
  rcases hstrat : s.strategy with _ | _ | _ <;> rw [hstrat] at h
  · -- one-for-one
    rcases hfind : s.launched.find? (fun p => decide (p.1 = id)) with _ | q <;>
      rw [hfind] at h
    · injection h with hA
      injection hA with hB hC
      subst hB
      exact ⟨h1, h2, h3, h4, h5, h6, h7, h8, h9⟩
    · obtain ⟨a, ord⟩ := q
      have ha : a = id := by
        have := List.find?_some hfind
        simpa using this
      subst ha
      have hqm : (a, ord) ∈ s.launched := List.mem_of_find?_eq_some hfind
      have hget : s.order.get? ord = some a := h8 (a, ord) hqm
      have hidl : a ∈ s.launchedIds := List.mem_map_of_mem _ hqm
      injection h with hA
      injection hA with hB hC
      subst hB
      have hfreshOrd : s.nextId ∉ s.order := by
        intro hmem
        exact Nat.lt_irrefl _ (h9 _ hmem)
      have hLmem : ∀ x, x ∈ ((s.nextId, ord) ::
          s.launched.filter (fun p => decide (p.1 ≠ a))).map (fun p => p.1) ↔
          x = s.nextId ∨ (x ∈ s.launchedIds ∧ x ≠ a) := by
        intro x
        rw [List.map_cons, List.mem_cons]
        constructor
        · rintro (rfl | hm)
          · exact Or.inl rfl
          · exact Or.inr (mem_keys_filter_ne.mp hm)
        · rintro (rfl | hm)
          · exact Or.inl rfl
          · exact Or.inr (mem_keys_filter_ne.mpr hm)
      refine ⟨?_, ?_, ?_, ?_, ?_, ?_, h7, ?_, ?_⟩
      · exact List.Nodup.set h1 hfreshOrd
      · intro x hx
        rcases (mem_set_unique h1 hget).mp hx with ⟨hxl, hxne⟩ | rfl
        · rcases h2 x hxl with hl | hst | hki
          · exact Or.inl ((hLmem x).mpr (Or.inr ⟨hl, hxne⟩))
          · exact Or.inr (Or.inl hst)
          · exact Or.inr (Or.inr hki)
        · exact Or.inl ((hLmem _).mpr (Or.inl rfl))
      · intro x hx
        rcases (hLmem x).mp hx with rfl | ⟨hl, hne⟩
        · exact (mem_set_unique h1 hget).mpr (Or.inr rfl)
        · exact (mem_set_unique h1 hget).mpr (Or.inl ⟨h3 x hl, hne⟩)
      · intro x hx
        refine (mem_set_unique h1 hget).mpr (Or.inl ⟨h4 x hx, ?_⟩)
        intro hxa
        subst hxa
        exact (h6 x hidl).1 hx
      · intro x hx
        refine (mem_set_unique h1 hget).mpr (Or.inl ⟨h5 x hx, ?_⟩)
        intro hxa
        subst hxa
        exact (h6 x hidl).2 hx
      · intro x hx
        rcases (hLmem x).mp hx with rfl | ⟨hl, -⟩
        · constructor
          · intro hc
            exact Nat.lt_irrefl _ (h9 _ (h4 _ hc))
          · intro hc
            exact Nat.lt_irrefl _ (h9 _ (h5 _ hc))
        · exact h6 x hl
      · intro p hp
        rcases List.mem_cons.mp hp with rfl | hpf
        · show (s.order.set ord s.nextId).get? ord = some s.nextId
          rw [List.get?_set_eq, hget]
          rfl
        · obtain ⟨hpl, hpd⟩ := List.mem_filter.mp hpf
          simp only [decide_eq_true_eq] at hpd
          have hgp := h8 p hpl
          have hne : ord ≠ p.2 := by
            intro he
            subst he
            rw [hget] at hgp
            have hap : a = p.1 := by injection hgp
            exact hpd hap.symm
          show (s.order.set ord s.nextId).get? p.2 = some p.1
          rw [List.get?_set_ne _ _ hne]
          exact hgp
      · intro x hx
        rcases (mem_set_unique h1 hget).mp hx with ⟨hxl, -⟩ | rfl
        · exact Nat.lt_succ_of_lt (h9 x hxl)
        · exact Nat.lt_succ_self _
  · -- one-for-all
    rcases hre : s.restart 0 with _ | ⟨s2, ev2⟩ <;> rw [hre] at h
    · exact Option.noConfusion h
    · injection h with hA
      injection hA with hB hC
      subst hB
      exact RegistryInv_restart ⟨h1, h2, h3, h4, h5, h6, h7, h8, h9⟩ hre
  · -- rest-for-one
    rcases hfind : s.launched.find? (fun p => decide (p.1 = id)) with _ | q <;>
      rw [hfind] at h
    · injection h with hA
      injection hA with hB hC
      subst hB
      exact ⟨h1, h2, h3, h4, h5, h6, h7, h8, h9⟩
    · obtain ⟨a, st⟩ := q
      replace h : (match s.restart st with
          | none => none
          | some (s2, ev2) => some (s2, true, ev2)) = some (s1, ok, ev) := h
      rcases hre : s.restart st with _ | ⟨s2, ev2⟩ <;> rw [hre] at h
      · exact Option.noConfusion h
      · injection h with hA
        injection hA with hB hC
        subst hB
        exact RegistryInv_restart ⟨h1, h2, h3, h4, h5, h6, h7, h8, h9⟩ hre

theorem RegistryInv_handle {s : Supervisor} {msg : BastionMessage} {s1 : Supervisor}
    {cont : Bool} {ev : List Event} (hs : RegistryInv s) (hwf : msgWF s msg)
    (h : s.handle msg = some (s1, cont, ev)) : RegistryInv s1 := by
  obtain ⟨h1, h2, h3, h4, h5, h6, h7, h8, h9⟩ := hs
  cases msg with
  | start => exact Option.noConfusion h
  | stop =>
    simp only [Supervisor.handle] at h
    rcases hr : s.stopRange 0 with _ | ⟨s2, ev2⟩ <;> rw [hr] at h
    · exact Option.noConfusion h
    · injection h with hA
      injection hA with hB hC
      subst hB
      exact RegistryInv_stopRange ⟨h1, h2, h3, h4, h5, h6, h7, h8, h9⟩ hr
  | kill =>
    simp only [Supervisor.handle] at h
    rcases hr : s.killRange 0 with _ | ⟨s2, ev2⟩ <;> rw [hr] at h
    · exact Option.noConfusion h
    · injection h with hA
      injection hA with hB hC
      subst hB
      exact RegistryInv_killRange ⟨h1, h2, h3, h4, h5, h6, h7, h8, h9⟩ hr
  | deploy d =>
    obtain ⟨hwf1, hwf2⟩ := hwf
    have hnotl : d.id ∉ s.launchedIds := fun hm => hwf1 (h3 d.id hm)
    have hfil : s.launched.filter (fun p => decide (p.1 ≠ d.id)) = s.launched :=
      filter_key_eq_self hnotl
    simp only [Supervisor.handle, hfil] at h
    injection h with hA
    injection hA with hB hC
    subst hB
    have horder : ∀ x, x ∈ s.order ++ [d.id] ↔ x ∈ s.order ∨ x = d.id := by
      intro x
      rw [List.mem_append, List.mem_singleton]
    have hLmem : ∀ x, x ∈ ((d.id, s.order.length) :: s.launched).map (fun p => p.1) ↔
        x = d.id ∨ x ∈ s.launchedIds := by
      intro x
      rw [List.map_cons, List.mem_cons]
      exact Iff.rfl
    refine ⟨?_, ?_, ?_, ?_, ?_, ?_, h7, ?_, ?_⟩
    · rw [List.nodup_append]
      refine ⟨h1, List.nodup_singleton _, ?_⟩
      intro x hx hx2
      rw [List.mem_singleton] at hx2
      subst hx2
      exact hwf1 hx
    · intro x hx
      rcases (horder x).mp hx with hxo | rfl
      · rcases h2 x hxo with hl | hst | hki
        · exact Or.inl ((hLmem x).mpr (Or.inr hl))
        · exact Or.inr (Or.inl hst)
        · exact Or.inr (Or.inr hki)
      · exact Or.inl ((hLmem _).mpr (Or.inl rfl))
    · intro x hx
      rcases (hLmem x).mp hx with rfl | hl
      · exact (horder _).mpr (Or.inr rfl)
      · exact (horder x).mpr (Or.inl (h3 x hl))
    · intro x hx
      exact (horder x).mpr (Or.inl (h4 x hx))
    · intro x hx
      exact (horder x).mpr (Or.inl (h5 x hx))
    · intro x hx
      rcases (hLmem x).mp hx with rfl | hl
      · constructor
        · intro hc
          exact hwf1 (h4 _ hc)
        · intro hc
          exact hwf1 (h5 _ hc)
      · exact h6 x hl
    · intro p hp
      rcases List.mem_cons.mp hp with rfl | hpl
      · show (s.order ++ [d.id]).get? s.order.length = some d.id
        exact List.get?_concat_length _ _
      · have hgp := h8 p hpl
        have hlt : p.2 < s.order.length := (List.get?_eq_some.mp hgp).1
        show (s.order ++ [d.id]).get? p.2 = some p.1
        rw [List.get?_append hlt]
        exact hgp
    · intro x hx
      rcases (horder x).mp hx with hxo | rfl
      · exact h9 x hxo
      · exact hwf2
  | prune => exact Option.noConfusion h
  | superviseWith st =>
    simp only [Supervisor.handle] at h
    injection h with hA
    injection hA with hB hC
    subst hB
    exact ⟨h1, h2, h3, h4, h5, h6, h7, h8, h9⟩
  | message payload =>
    simp only [Supervisor.handle] at h
    injection h with hA
    injection hA with hB hC
    subst hB
    exact ⟨h1, h2, h3, h4, h5, h6, h7, h8, h9⟩
  | stoppedMsg id =>
    simp only [Supervisor.handle] at h
    rcases hfind : s.launched.find? (fun p => decide (p.1 = id)) with _ | q <;>
      rw [hfind] at h
    · injection h with hA
      injection hA with hB hC
      subst hB
      exact ⟨h1, h2, h3, h4, h5, h6, h7, h8, h9⟩
    · have hq1 : q.1 = id := by
        have := List.find?_some hfind
        simpa using this
      have hidl : id ∈ s.launchedIds :=
        hq1 ▸ List.mem_map_of_mem _ (List.mem_of_find?_eq_some hfind)
      injection h with hA
      injection hA with hB hC
      subst hB
      have hSmem : ∀ x, x ∈ (s.stopped ++ [(⟨id⟩ : Supervised)]).map (fun y => y.id) ↔
          x ∈ s.stoppedIds ∨ x = id := by
        intro x
        rw [List.map_append, List.mem_append]
        refine or_congr Iff.rfl ?_
        simp [eq_comm]
      refine ⟨h1, ?_, ?_, ?_, h5, ?_, ?_, ?_, h9⟩
      · intro x hx
        rcases h2 x hx with hl | hst | hki
        · by_cases hxe : x = id
          · subst hxe
            exact Or.inr (Or.inl ((hSmem x).mpr (Or.inr rfl)))
          · exact Or.inl (mem_keys_filter_ne.mpr ⟨hl, hxe⟩)
        · exact Or.inr (Or.inl ((hSmem x).mpr (Or.inl hst)))
        · exact Or.inr (Or.inr hki)
      · intro x hx
        exact h3 x (mem_keys_filter_ne.mp hx).1
      · intro x hx
        rcases (hSmem x).mp hx with hst | rfl
        · exact h4 x hst
        · exact h3 x hidl
      · intro x hx
        obtain ⟨hl, hne⟩ := mem_keys_filter_ne.mp hx
        constructor
        · intro hc
          rcases (hSmem x).mp hc with hst | rfl
          · exact (h6 x hl).1 hst
          · exact hne rfl
        · exact (h6 x hl).2
      · intro x hx
        rcases (hSmem x).mp hx with hst | rfl
        · exact h7 x hst
        · exact (h6 x hidl).2
      · intro p hp
        exact h8 p (List.mem_filter.mp hp).1
  | faulted id =>
    simp only [Supervisor.handle] at h
    rcases hrec : s.recover id with _ | ⟨s2, ok2, ev2⟩ <;> rw [hrec] at h
    · exact Option.noConfusion h
    · have hs2 := RegistryInv_recover ⟨h1, h2, h3, h4, h5, h6, h7, h8, h9⟩ hrec
      cases ok2 with
      | true =>
        injection h with hA
        injection hA with hB hC
        subst hB
        exact hs2
      | false =>
        replace h : (match s2.killRange 0 with
            | none => none
            | some (s3, ev3) =>
              some (s3, false, ev2 ++ ev3 ++ [Event.emittedFaulted])) =
            some (s1, cont, ev) := h
        rcases hkr : s2.killRange 0 with _ | ⟨s3, ev3⟩ <;> rw [hkr] at h
        · exact Option.noConfusion h
        · injection h with hA
          injection hA with hB hC
          subst hB
          exact RegistryInv_killRange hs2 hkr

theorem RegistryInv_of_fields_eq {a b : Supervisor} (ho : a.order = b.order)
    (hl : a.launched = b.launched) (hst : a.stopped = b.stopped)
    (hki : a.killed = b.killed) (hn : a.nextId = b.nextId) (hb : RegistryInv b) :
    RegistryInv a := by
  unfold RegistryInv Supervisor.launchedIds Supervisor.stoppedIds Supervisor.killedIds
    at hb ⊢
  rw [ho, hl, hst, hki, hn]
  exact hb

theorem RegistryInv_resetSelf {s : Supervisor} {bcOpt : Option Broadcast}
    {s' : Supervisor} {ev : List Event} (hs : RegistryInv s)
    (h : s.resetSelf bcOpt = some (s', ev)) : RegistryInv s' := by
  obtain ⟨s2, ev2, hre, ho, hl, hst, hki, hn, -⟩ :=
    resetSelf_matches_restart s bcOpt s' ev h
  exact RegistryInv_of_fields_eq ho hl hst hki hn (RegistryInv_restart hs hre)

/-- C1: the registry invariant — `launched`, `stopped` and `killed` are
pairwise disjoint, their union is the set of identifiers in `order`, and
every launched ordinal indexes its own identifier in `order` — holds in the
initial state and is preserved by every message handler (Deploy, Stop,
Kill, Stopped, Faulted with every strategy, SuperviseWith, user broadcast)
as well as by the restart engine's bulk restart and by reset of the
supervisor itself, so it holds in every state reachable by the
control-message protocol. -/
theorem registry_invariant_preserved :
    (∀ (b : Broadcast) (n : Nat), RegistryInv (Supervisor.new b n)) ∧
    (∀ (s : Supervisor) (msg : BastionMessage) (s1 : Supervisor) (cont : Bool)
      (ev : List Event), RegistryInv s → msgWF s msg →
      s.handle msg = some (s1, cont, ev) → RegistryInv s1) ∧
    (∀ (s : Supervisor) (start : Nat) (s' : Supervisor) (ev : List Event),
      RegistryInv s → s.restart start = some (s', ev) → RegistryInv s') ∧
    (∀ (s : Supervisor) (bcOpt : Option Broadcast) (s' : Supervisor) (ev : List Event),
      RegistryInv s → s.resetSelf bcOpt = some (s', ev) → RegistryInv s') := by
  refine ⟨?_, ?_, ?_, ?_⟩
  · intro b n
    refine ⟨List.nodup_nil, ?_, ?_, ?_, ?_, ?_, ?_, ?_, ?_⟩ <;>
    · intro x hx
      exact absurd hx (List.not_mem_nil x)
  · exact fun s msg s1 cont ev hs hwf h => RegistryInv_handle hs hwf h
  · exact fun s start s' ev hs h => RegistryInv_restart hs h
  · exact fun s bcOpt s' ev hs h => RegistryInv_resetSelf hs h


/-- Witness for C1: the initial state satisfies the invariant, and handling
a Deploy, a bulk restart and a reset of self each preserve it at concrete
inputs. -/
theorem registry_invariant_preserved_witness :
    RegistryInv (Supervisor.new ⟨0, []⟩ 1) ∧
    RegistryInv c1state ∧ msgWF c1state (BastionMessage.deploy ⟨7⟩) ∧
    RegistryInv (⟨⟨0, [10, 11, 7]⟩, [10, 11, 7], [(7, 2), (10, 0), (11, 1)], [], [],
      SupervisionStrategy.oneForOne, false, [], true, 12⟩ : Supervisor) ∧
    RegistryInv (⟨⟨0, []⟩, [5], [], [], [⟨5⟩], SupervisionStrategy.oneForAll, false, [],
      true, 6⟩ : Supervisor) ∧
    RegistryInv (⟨⟨0, [6]⟩, [6], [(6, 0)], [], [], SupervisionStrategy.oneForAll, false,
      [], true, 7⟩ : Supervisor) ∧
    RegistryInv ({ Supervisor.new ⟨0, []⟩ 1 with bcast := ⟨5, []⟩ } : Supervisor) :=
  ⟨registry_invariant_preserved.1 ⟨0, []⟩ 1,
   by decide, by decide,
   registry_invariant_preserved.2.1 c1state (BastionMessage.deploy ⟨7⟩)
     ⟨⟨0, [10, 11, 7]⟩, [10, 11, 7], [(7, 2), (10, 0), (11, 1)], [], [],
       SupervisionStrategy.oneForOne, false, [], true, 12⟩ true
     [Event.beforeStartCb 7, Event.deliver 7 ChildMsg.start]
     (by decide) (by decide) (by decide),
   by decide,
   registry_invariant_preserved.2.2.1
     ⟨⟨0, []⟩, [5], [], [], [⟨5⟩], SupervisionStrategy.oneForAll, false, [], true, 6⟩ 0
     ⟨⟨0, [6]⟩, [6], [(6, 0)], [], [], SupervisionStrategy.oneForAll, false, [], true, 7⟩
     [Event.killChildren, Event.beforeStartCb 6, Event.deliver 6 ChildMsg.start]
     (by decide) (by decide),
   registry_invariant_preserved.2.2.2 (Supervisor.new ⟨0, []⟩ 1) (some ⟨5, []⟩)
     { Supervisor.new ⟨0, []⟩ 1 with bcast := ⟨5, []⟩ } [Event.killChildren]
     (by decide) (by decide)⟩
